import Mathlib

/-! # The location registry of Stellarium (`src/core/StelLocationMgr.cpp`)

A shallow embedding of the location manager: its in-memory catalogue (a `QMap` from
identifier to `StelLocation`), the free-text resolver `locationForString`, and the
operations that add, delete and replace catalogue entries.

`QMap` is the Qt 5 container: an ordered dictionary that may hold several items under one
key. It is represented by the sequence of its items in iteration order, which Qt keeps
sorted by key, the most recently inserted item first among items of equal key.
-/

namespace Stel

/-! ## QMap -/

/-- The items of a `QMap<K, V>` in iteration order. -/
abbrev QMap (K V : Type) := List (K × V)

namespace QMap

variable {K V : Type} [LinearOrder K]

/-- The invariant of the container: items are in non-decreasing key order. -/
def Sorted (m : QMap K V) : Prop := List.Pairwise (fun a b => a.1 ≤ b.1) m

instance (m : QMap K V) : Decidable (Sorted m) := by
  unfold Sorted; infer_instance

/-- The method `QMap::find` / `QMap::value`: the item at the lower bound of `k` when its key is `k`,
that is the first (most recently inserted) item stored under `k`; `none` stands for `end()`. -/
def find (k : K) : QMap K V → Option V
  | [] => none
  | (k1, v1) :: rest =>
    if k1 < k then find k rest
    else if k < k1 then none
    else some v1

/-- The method `QMap::contains`. -/
def contains (k : K) (m : QMap K V) : Bool := (find k m).isSome

/-- The method `QMap::insert`: when an item is stored under `k` the value of the first such item is
replaced, otherwise a new item is created at the lower bound of `k`. -/
def insert (k : K) (v : V) : QMap K V → QMap K V
  | [] => [(k, v)]
  | (k1, v1) :: rest =>
    if k1 < k then (k1, v1) :: insert k v rest
    else if k < k1 then (k, v) :: (k1, v1) :: rest
    else (k1, v) :: rest

/-- The method `QMap::insertMulti`: a new item is always created, in front of the items whose key is
not less than `k`. -/
def insertMulti (k : K) (v : V) : QMap K V → QMap K V
  | [] => [(k, v)]
  | (k1, v1) :: rest =>
    if k1 < k then (k1, v1) :: insertMulti k v rest
    else (k, v) :: (k1, v1) :: rest

/-- The method `QMap::remove`: deletes the node found for `k` until none is found, so every item
stored under `k` goes. -/
def remove (k : K) : QMap K V → QMap K V
  | [] => []
  | (k1, v1) :: rest =>
    if k1 < k then (k1, v1) :: remove k rest
    else if k < k1 then (k1, v1) :: rest
    else remove k rest

/-- The method `QMap::unite`: walks `other` from its last item to its first and adds each one with
`insertMulti`. Nothing is replaced; in the words of the Qt 5 documentation, "if a key is
common to both maps, the resulting map will contain the key multiple times". -/
def unite (m other : QMap K V) : QMap K V :=
  other.foldr (fun kv acc => insertMulti kv.1 kv.2 acc) m

/-- The method `QMap::count(key)`: the number of items stored under `k`. -/
def count (k : K) (m : QMap K V) : Nat := (m.filter (fun kv => decide (kv.1 = k))).length

end QMap

/-! ## Strings, records and what lies outside the file -/

/-- A `QString`, as the sequence of its characters. As keys of a `QMap` strings are compared
character by character, the way `operator<` compares the code units of two `QString`s. -/
abbrev QString := List Char

/-- A `StelLocation` record. `F` stands for the C++ type `float`. -/
structure StelLocation (F : Type) where
  name : QString
  state : QString
  country : QString
  role : Char
  population : Int
  latitude : F
  longitude : F
  altitude : Int
  bortleScaleIndex : F
  ianaTimeZone : QString
  planetName : QString
  landscapeKey : QString
  isUserLocation : Bool
  deriving DecidableEq

/-- What `StelLocationMgr.cpp` calls but does not define: the members of `StelLocation`
(`StelLocation.hpp`), and the character classes and number parser of Qt. -/
structure Ext (F : Type) where
  /-- The method `StelLocation::getID`. -/
  getID : StelLocation F → QString
  /-- The method `StelLocation::isValid`. -/
  isValid : StelLocation F → Bool
  /-- The method `StelLocation::serializeToLine`. -/
  serializeToLine : StelLocation F → QString
  /-- The method `StelLocation::createFromLine`. -/
  createFromLine : QString → StelLocation F
  /-- A default-constructed record, `StelLocation ret;`. -/
  defaultLocation : StelLocation F
  /-- The method `QString::toFloat`: the value when the conversion succeeds (`*ok` true). -/
  toFloat : QString → Option F
  /-- The test `QChar::isSpace`: what `trimmed()` strips and `\s` matches. -/
  isSpace : Char → Bool
  /-- The decimal digits, what `\d` matches. -/
  isDigit : Char → Bool

/-- The method `QString::trimmed`: white space removed from both ends. -/
def trimmed (isSpace : Char → Bool) (s : QString) : QString :=
  ((s.dropWhile isSpace).reverse.dropWhile isSpace).reverse

/-! ## The two regular expressions

`QRegExp::exactMatch` anchors the pattern at both ends of the string. Quantifiers are
greedy: a group takes the longest text for which the rest of the pattern still matches.
A group that took no part in the match captures the empty string. -/

/-- The candidates `n - 1, n - 2, ..., 0`, longest first. -/
def downFrom (n : Nat) : List Nat := (List.range n).reverse

/-- The tail `(.+),(.+)` of the coordinate pattern on the whole of `s`: the split at the
last comma that leaves text on both sides. -/
def matchLatLong (s : QString) : Option (QString × QString) :=
  (downFrom s.length).findSome? fun i =>
    if 0 < i ∧ i + 1 < s.length ∧ s[i]? = some ',' then some (s.take i, s.drop (i + 1))
    else none

/-- The part `\s+(.+),(.+)` on the whole of `s`: the white space run taken as long as
possible. -/
def matchSpaceLatLong (isSpace : Char → Bool) (s : QString) : Option (QString × QString) :=
  (downFrom (s.takeWhile isSpace).length).findSome? fun j => matchLatLong (s.drop (j + 1))

/-- The pattern `(?:(.+)\s+)?(.+),(.+)` of `locationForString` on the whole of `s`; the
result is `capturedTexts()[1]`, `[2]` and `[3]`. The optional name group is tried first,
with the longest name first, and left out only when no name leads to a match. -/
def exactMatchCoordinates (isSpace : Char → Bool) (s : QString) :
    Option (QString × QString × QString) :=
  match (downFrom s.length).findSome? fun i =>
      (matchSpaceLatLong isSpace (s.drop (i + 1))).map fun ab => (s.take (i + 1), ab.1, ab.2) with
  | some r => some r
  | none => (matchLatLong s).map fun ab => ([], ab.1, ab.2)

/-- A run `[\d.]+` at the head of `s`: the run and what follows it, when the run is not
empty. -/
def digitsDots (isDigit : Char → Bool) (s : QString) : Option (QString × QString) :=
  let p : Char → Bool := fun c => isDigit c || c == '.'
  if (s.takeWhile p).isEmpty then none else some (s.takeWhile p, s.dropWhile p)

/-- An optional group `(?:([\d.]+)c)?` at the head of `s`, for a closing character `c` that
is neither a digit nor a dot: the captured text and what follows the group. -/
def optGroup (isDigit : Char → Bool) (c : Char) (s : QString) : QString × QString :=
  match digitsDots isDigit s with
  | some (g, c1 :: rest) => if c1 = c then (g, rest) else ([], s)
  | _ => ([], s)

/-- The pattern `([+-]?[\d.]+)°(?:([\d.]+)')?(?:([\d.]+)")?` of `parseAngle` on the whole
of `s`; the result is `capturedTexts()[1]`, `[2]` and `[3]`. -/
def exactMatchDMS (isDigit : Char → Bool) (s : QString) :
    Option (QString × QString × QString) :=
  let sign : QString := match s with
    | '+' :: _ => ['+']
    | '-' :: _ => ['-']
    | _ => []
  match digitsDots isDigit (s.drop sign.length) with
  | some (d, '°' :: r1) =>
    let m := optGroup isDigit '\'' r1
    let sec := optGroup isDigit '"' m.2
    if sec.2.isEmpty then some (sign ++ d, m.1, sec.1) else none
  | _ => none

/-! ## parseAngle and locationForString -/

section Angle

variable {F : Type} [Zero F] [Add F] [Div F] [NatCast F]

/-- The function `parseAngle(s, &ok)`: the returned angle and the final value of `*ok`. -/
def parseAngle (E : Ext F) (s : QString) : F × Bool :=
  match E.toFloat s with
  | some ret => (ret, true)
  | none =>
    match exactMatchDMS E.isDigit s with
    | some (c1, c2, c3) =>
      match E.toFloat c1 with
      | none => (0, false)
      | some deg =>
        match (if c2.isEmpty then some 0 else E.toFloat c2) with
        | none => (0, false)
        | some min =>
          match (if c3.isEmpty then some 0 else E.toFloat c3) with
          | none => (0, false)
          | some sec => (deg + min / ((60 : Nat) : F) + sec / ((3600 : Nat) : F), true)
    | none => (0, false)

/-- The method `StelLocationMgr::locationForString`, on the catalogue `locations`. -/
def locationForString (E : Ext F) (locations : QMap QString (StelLocation F)) (s : QString) :
    StelLocation F :=
  match QMap.find s locations with
  | some v => v
  | none =>
    let ret := E.defaultLocation
    match exactMatchCoordinates E.isSpace s with
    | some (c1, c2, c3) =>
      let lat := parseAngle E (trimmed E.isSpace c2)
      let ret := { ret with latitude := lat.1 }
      let ret := if !lat.2 then { ret with role := '!' } else ret
      let lon := parseAngle E (trimmed E.isSpace c3)
      let ret := { ret with longitude := lon.1 }
      let ret := if !lon.2 then { ret with role := '!' } else ret
      let ret := { ret with name := trimmed E.isSpace c1 }
      { ret with planetName := "Earth".toList }
    | none => { ret with role := '!' }

/-! ## The manager -/

/-- What an operation leaves outside the manager, in the order it happens. -/
inductive Effect where
  /-- The signal `locationListChanged()` was emitted. -/
  | locationListChanged
  /-- Text was appended to `data/user_locations.txt`. -/
  | userFileAppended (text : QString)
  /-- The file `data/user_locations.txt` was truncated and written anew. -/
  | userFileRewritten (text : QString)
  deriving DecidableEq

/-- The state the operations act on: the members `locations` and `lastResortLocation`
of `StelLocationMgr`, the content of the user catalogue `data/user_locations.txt` (empty
when the file does not exist), and the effects so far, oldest first. -/
structure StelLocationMgr (F : Type) where
  locations : QMap QString (StelLocation F)
  lastResortLocation : StelLocation F
  userFile : QString
  trace : List Effect

/-- The answers of the file system to one call of `saveUserLocation` or
`deleteUserLocation`. -/
structure FileAnswers where
  /-- Whether `StelFileMgr::findFile("data/user_locations.txt", ...)` returned a path. -/
  found : Bool
  /-- The answer of `StelFileMgr::exists(getUserDir() + "/data")`. -/
  dirExists : Bool
  /-- Whether `StelFileMgr::mkDir(getUserDir() + "/data")` succeeded. -/
  mkDir : Bool
  /-- Whether `QFile::open` on the path succeeded. -/
  opened : Bool

/-- The file is reached for writing: a path is there (found, or its directory exists or
could be made) and the file opens. -/
def FileAnswers.writable (fs : FileAnswers) : Bool :=
  (fs.found || fs.dirExists || fs.mkDir) && fs.opened

/-- The default constructor `StelLocationMgr::StelLocationMgr()`, given what
`loadCitiesBin("data/base_locations.bin.gz")` and `loadCities("data/user_locations.txt", true)`
returned, the configured `init_location/last_location` and the user catalogue on disk. -/
def construct (E : Ext F) (base user : QMap QString (StelLocation F)) (lastLocation : QString)
    (userFile : QString) : StelLocationMgr F :=
  let locations := QMap.unite base user
  { locations := locations
    lastResortLocation := locationForString E locations lastLocation
    userFile := userFile
    trace := [] }

/-- The method `StelLocationMgr::setLocations`. -/
def setLocations (E : Ext F) (w : StelLocationMgr F) (locations : List (StelLocation F)) :
    StelLocationMgr F :=
  let locs := locations.foldl (fun acc it => QMap.insert (E.getID it) it acc) w.locations
  { w with locations := locs, trace := w.trace ++ [Effect.locationListChanged] }

/-- The method `StelLocationMgr::canSaveUserLocation`. -/
def canSaveUserLocation (E : Ext F) (w : StelLocationMgr F) (loc : StelLocation F) : Bool :=
  E.isValid loc && (QMap.find (E.getID loc) w.locations).isNone

/-- The method `StelLocationMgr::saveUserLocation`: the returned value and the state it
leaves. The assignment `locations[loc.getID()]=loc` sets the value of the first item under
the key, creating the item when there is none, as `QMap::insert` does. -/
def saveUserLocation (E : Ext F) (fs : FileAnswers) (w : StelLocationMgr F) (loc : StelLocation F) :
    Bool × StelLocationMgr F :=
  if !canSaveUserLocation E w loc then (false, w)
  else
    let w := { w with locations := QMap.insert (E.getID loc) loc w.locations }
    let w := { w with trace := w.trace ++ [Effect.locationListChanged] }
    if !fs.found && !fs.dirExists && !fs.mkDir then (false, w)
    else if !fs.opened then (false, w)
    else
      let text := E.serializeToLine loc ++ ['\n']
      (true, { w with userFile := w.userFile ++ text
                      trace := w.trace ++ [Effect.userFileAppended text] })

/-- The method `StelLocationMgr::canDeleteUserLocation`. -/
def canDeleteUserLocation (w : StelLocationMgr F) (id : QString) : Bool :=
  match QMap.find id w.locations with
  | none => false
  | some v => v.isUserLocation

/-- The loop of `deleteUserLocation` that writes the remaining user locations. -/
def userLines (E : Ext F) (locations : QMap QString (StelLocation F)) : QString :=
  locations.foldl
    (fun out kv => if kv.2.isUserLocation then out ++ (E.serializeToLine kv.2 ++ ['\n']) else out)
    []

/-- The method `StelLocationMgr::deleteUserLocation`: the returned value and the state it
leaves. -/
def deleteUserLocation (E : Ext F) (fs : FileAnswers) (w : StelLocationMgr F) (id : QString) :
    Bool × StelLocationMgr F :=
  if !canDeleteUserLocation w id then (false, w)
  else
    let w := { w with locations := QMap.remove id w.locations }
    let w := { w with trace := w.trace ++ [Effect.locationListChanged] }
    if !fs.found && !fs.dirExists && !fs.mkDir then (false, w)
    else if !fs.opened then (false, w)
    else
      let text := userLines E w.locations
      (true, { w with userFile := text
                      trace := w.trace ++ [Effect.userFileRewritten text] })

end Angle

/-! ## A stand-in for the outside

The theorems below hold for every `Ext`. To run the operations on concrete input they are
applied to this one: identifiers of the shape `name, country`, validity read off the role,
and a number parser that knows two decimal strings. -/

/-- A default-constructed record of the stand-in. -/
def sampleDefault : StelLocation ℚ :=
  { name := [], state := [], country := [], role := 'X', population := 0, latitude := 0,
    longitude := 0, altitude := 0, bortleScaleIndex := 2, ianaTimeZone := [],
    planetName := [], landscapeKey := [], isUserLocation := true }

/-- The stand-in for the outside. -/
def sampleExt : Ext ℚ :=
  { getID := fun r => if r.country.isEmpty then r.name else r.name ++ ", ".toList ++ r.country
    isValid := fun r => r.role != '!'
    serializeToLine := fun r => r.name ++ ['\t'] ++ r.country
    createFromLine := fun l => { sampleDefault with name := l }
    defaultLocation := sampleDefault
    toFloat := fun s =>
      if s = "25.1".toList then some (251 / 10)
      else if s = "121.5".toList then some (243 / 2)
      else none
    isSpace := fun c => c == ' ' || c == '\t'
    isDigit := fun c => '0' ≤ c && c ≤ '9' }

/-- A user location named Paris, in France. -/
def paris : StelLocation ℚ :=
  { sampleDefault with name := "Paris".toList, country := "France".toList, role := 'C' }

/-- A location of the base catalogue named Paris, in France. -/
def parisBase : StelLocation ℚ := { paris with isUserLocation := false, population := 2110 }

/-- A user location named Lyon, in France. -/
def lyon : StelLocation ℚ :=
  { sampleDefault with name := "Lyon".toList, country := "France".toList, role := 'R' }

/-- A record that failed validation. -/
def broken : StelLocation ℚ := { sampleDefault with name := "Nowhere".toList, role := '!' }

/-- A manager holding `locations`, an empty user catalogue and no effects yet. -/
def mgrOf (locations : QMap QString (StelLocation ℚ)) : StelLocationMgr ℚ :=
  { locations := locations, lastResortLocation := sampleDefault, userFile := [], trace := [] }

/-- File system answers under which the user catalogue opens. -/
def fsGood : FileAnswers := { found := true, dirExists := true, mkDir := true, opened := true }

/-- File system answers under which the user catalogue exists but does not open. -/
def fsNoOpen : FileAnswers := { found := true, dirExists := true, mkDir := true, opened := false }

/-! ## The time zone names -/

/-- The method `QMap::value(key, defaultValue)`: the value of the first item under `k`, or
the default when there is none. -/
def QMap.value {K V : Type} [LinearOrder K] (k : K) (dflt : V) (m : QMap K V) : V :=
  (QMap.find k m).getD dflt

/-- The method `QMap::key(value, defaultKey)`: the first key, in iteration order, whose item
has the value `v`, or the default when there is none. -/
def QMap.key {K V : Type} [DecidableEq V] (v : V) (dflt : K) (m : QMap K V) : K :=
  match m.find? (fun kv => decide (kv.2 = v)) with
  | some kv => kv.1
  | none => dflt

/-- The calls of `locationDBToIANAtranslations.insert` in the constructor, in their order. -/
def translationSeed : List (String × String) :=
  [("Europe/Minsk", "UTC+03:00"),
   ("Europe/Samara", "UTC+04:00"),
   ("America/Cancun", "UTC-05:00"),
   ("Asia/Kamchatka", "UTC+12:00"),
   ("Europe/Astrakhan", "UTC+04:00"),
   ("Europe/Ulyanovsk", "UTC+04:00"),
   ("Europe/Kirov", "UTC+03:00"),
   ("Asia/Hebron", "Asia/Jerusalem"),
   ("Asia/Gaza", "Asia/Jerusalem"),
   ("Asia/Kolkata", "Asia/Calcutta"),
   ("Asia/Kathmandu", "Asia/Katmandu"),
   ("Asia/Tomsk", "Asia/Novosibirsk"),
   ("Asia/Barnaul", "UTC+07:00"),
   ("Asia/Ho_Chi_Minh", "Asia/Saigon"),
   ("Asia/Hovd", "UTC+07:00"),
   ("America/Argentina/Buenos_Aires", "America/Buenos_Aires"),
   ("America/Argentina/Jujuy", "America/Jujuy"),
   ("America/Argentina/Mendoza", "America/Mendoza"),
   ("America/Argentina/Catamarca", "America/Catamarca"),
   ("America/Argentina/Cordoba", "America/Cordoba"),
   ("America/Indiana/Indianapolis", "America/Indianapolis"),
   ("America/Kentucky/Louisville", "America/Louisville"),
   ("America/Miquelon", "UTC-03:00"),
   ("Africa/Asmara", "Africa/Asmera"),
   ("Atlantic/Faroe", "Atlantic/Faeroe"),
   ("Pacific/Pohnpei", "Pacific/Ponape"),
   ("Pacific/Norfolk", "UTC+11:00"),
   ("Pacific/Pitcairn", "UTC-08:00"),
   ("Asia/Rangoon", "Asia/Yangon"),
   ("", "UTC")]

/-- The static member `locationDBToIANAtranslations` once the constructor has seeded it: the
empty map after the insertions of `translationSeed`. A `QByteArray` is written as the string
it encodes; the order of the keys is the same. -/
def locationDBToIANAtranslations : QMap QString QString :=
  translationSeed.foldl (fun acc kv => QMap.insert kv.1.toList kv.2.toList acc) []

/-- The test `tzString.startsWith("UTC")`. -/
def startsWithUTC (s : QString) : Bool := s.take 3 == "UTC".toList

/-- The method `StelLocationMgr::sanitizeTimezoneStringForLocationDB`, on the translation
table `table`. -/
def sanitizeTimezoneStringForLocationDB (table : QMap QString QString) (tzString : QString) :
    QString :=
  if startsWithUTC tzString then tzString
  else
    let res := QMap.key tzString "---".toList table
    if res ≠ "---".toList then res else tzString

/-- The method `StelLocationMgr::sanitizeTimezoneStringFromLocationDB`, on the translation
table `table`. -/
def sanitizeTimezoneStringFromLocationDB (table : QMap QString QString) (dbString : QString) :
    QString :=
  if startsWithUTC dbString then dbString
  else if dbString = [] then "UTC".toList
  else
    let res := QMap.value dbString "---".toList table
    if res ≠ "---".toList then res else dbString

/-- The operation `toHostSpelling` in the words of the specification: a name that starts
with `UTC` is returned unchanged, the empty name gives `UTC`, a key of the table gives its
value, and any other name is returned unchanged. -/
def toHostSpellingSpec (table : QMap QString QString) (dbName : QString) : QString :=
  if startsWithUTC dbName then dbName
  else if dbName = [] then "UTC".toList
  else match QMap.find dbName table with
    | some host => host
    | none => dbName

/-- The operation `toDbSpelling` in the words of the specification: a name that starts with
`UTC` is returned unchanged, a name that is a value of the table gives a key that has it,
and any other name is returned unchanged. -/
def toDbSpellingSpec (table : QMap QString QString) (hostName : QString) : QString :=
  if startsWithUTC hostName then hostName
  else match table.find? (fun kv => decide (kv.2 = hostName)) with
    | some kv => kv.1
    | none => hostName

/-- The stand-in for the outside with a number parser that knows the decimal strings used
as degrees, minutes and seconds below, and no other string. -/
def angleExt : Ext ℚ :=
  { sampleExt with
    toFloat := fun s =>
      if s = "12".toList then some 12
      else if s = "-12".toList then some (-12)
      else if s = "-0".toList then some 0
      else if s = "30".toList then some 30
      else if s = "+121".toList then some 121
      else if s = "33".toList then some 33
      else if s = "38.28".toList then some (3828 / 100)
      else none }

/-- The text of an optional group `(?:([\d.]+)c)?` whose capture is `g`: nothing when the
group is left out, the capture and the closing character `c` otherwise. -/
def closedGroup (g : QString) (c : Char) : QString := if g = [] then [] else g ++ [c]

/-! ## Loading the catalogues and searching them -/

/-- The invariant of a map that holds no key twice: the keys increase strictly. -/
def QMap.StrictSorted {K V : Type} [LinearOrder K] (m : QMap K V) : Prop :=
  List.Pairwise (fun a b => a.1 < b.1) m

instance {K V : Type} [LinearOrder K] (m : QMap K V) : Decidable (QMap.StrictSorted m) := by
  unfold QMap.StrictSorted; infer_instance

/-- The test of `loadCities` for a line that is passed over: an empty line, a line that
starts with `#`, or a line that splits at its tabs into fewer than 8 fields. -/
def skippedLine (rawline : QString) : Bool :=
  rawline.isEmpty || rawline.head? == some '#' || decide (rawline.count '\t' + 1 < 8)

/-- The body of the loop of `loadCities` for one line read from the file. The source asks
`locations.contains(locId)` and then reads `locations[locId]`; both are the lookup of
`locId`. -/
def loadCitiesLine {F : Type} (E : Ext F) (isUserLocation : Bool)
    (locations : QMap QString (StelLocation F)) (rawline : QString) :
    QMap QString (StelLocation F) :=
  if skippedLine rawline then locations
  else
    let loc := { E.createFromLine rawline with isUserLocation := isUserLocation }
    let locId := E.getID loc
    match QMap.find locId locations with
    | some loc2 =>
      let loc2 := if !loc2.state.isEmpty
        then { loc2 with name := loc2.name ++ (" (".toList ++ loc2.state ++ ")".toList) }
        else loc2
      let locations := QMap.remove locId locations
      let locations := QMap.insert (E.getID loc2) loc2 locations
      let loc := if !loc.state.isEmpty
        then { loc with name := loc.name ++ (" (".toList ++ loc.state ++ ")".toList) }
        else loc
      QMap.insert (E.getID loc) loc locations
    | none => QMap.insert locId loc locations

/-- The method `StelLocationMgr::loadCities`, given the lines of the file, or `none` when
the file is not found or does not open. -/
def loadCities {F : Type} (E : Ext F) (file : Option (List QString)) (isUserLocation : Bool) :
    QMap QString (StelLocation F) :=
  match file with
  | none => []
  | some lines => lines.foldl (loadCitiesLine E isUserLocation) []

/-- A record with its state appended to its name, as in `name += " ("+state+")"`. -/
def withStateInName {F : Type} (loc : StelLocation F) : StelLocation F :=
  { loc with name := loc.name ++ (" (".toList ++ loc.state ++ ")".toList) }

/-- The method `QStringList::removeDuplicates`: the first occurrence of every entry is
kept, in the order of the list. -/
def removeDuplicates : List QString → List QString
  | [] => []
  | x :: xs => x :: (removeDuplicates xs).filter (fun y => decide (y ≠ x))

/-- The pass of `loadCitiesBin` over one decoded item: the items so far with this one
added, its time zone replaced when the translated name is available, and the list
`unknownTZlist` so far. -/
def loadCitiesBinItem {F : Type} (table : QMap QString QString)
    (availableTimeZoneList : List QString)
    (acc : QMap QString (StelLocation F) × List QString) (i : QString × StelLocation F) :
    QMap QString (StelLocation F) × List QString :=
  let loc := i.2
  if loc.ianaTimeZone ≠ "LMST".toList ∧ loc.ianaTimeZone ≠ "LTST".toList ∧
      ¬ loc.ianaTimeZone ∈ availableTimeZoneList then
    let fixTZname := sanitizeTimezoneStringFromLocationDB table loc.ianaTimeZone
    if fixTZname ∈ availableTimeZoneList then
      (acc.1 ++ [(i.1, { loc with ianaTimeZone := fixTZname })], acc.2)
    else (acc.1 ++ [i], acc.2 ++ [loc.ianaTimeZone])
  else (acc.1 ++ [i], acc.2)

/-- The method `StelLocationMgr::loadCitiesBin`, given the map decoded from the file
(`none` when the file is not found or does not open), the translation table and the list
`QTimeZone::availableTimeZoneIds()`: the returned map, and the summary of unknown time
zones that is written to the log. -/
def loadCitiesBin {F : Type} (table : QMap QString QString)
    (decoded : Option (QMap QString (StelLocation F))) (availableTimeZoneList : List QString) :
    QMap QString (StelLocation F) × List QString :=
  match decoded with
  | none => ([], [])
  | some res =>
    let out := res.foldl (loadCitiesBinItem table availableTimeZoneList) ([], [])
    (out.1, if out.2.length > 0 then removeDuplicates out.2 else [])

/-- The time zone of a record after the pass, in the words of the specification: kept
when it is `LMST`, `LTST` or known to the host; else its host spelling when that is known
to the host; else kept. -/
def timeZoneAfterPass (table : QMap QString QString) (available : List QString)
    (z : QString) : QString :=
  if z = "LMST".toList ∨ z = "LTST".toList ∨ z ∈ available then z
  else if sanitizeTimezoneStringFromLocationDB table z ∈ available then
    sanitizeTimezoneStringFromLocationDB table z
  else z

/-- The test for a time zone that the pass cannot resolve. -/
def unresolvedTimeZone (table : QMap QString QString) (available : List QString)
    (z : QString) : Bool :=
  decide (z ≠ "LMST".toList ∧ z ≠ "LTST".toList ∧ ¬ z ∈ available ∧
    ¬ sanitizeTimezoneStringFromLocationDB table z ∈ available)

/-- The method `StelLocationMgr::pickLocationsNearby`, with `StelLocation::distanceDegrees`
as a parameter. The member `locations` is only read. -/
def pickLocationsNearby {F : Type} [LE F] [DecidableRel (fun a b : F => a ≤ b)]
    (distanceDegrees : F → F → F → F → F) (w : StelLocationMgr F)
    (planetName : QString) (longitude latitude radiusDegrees : F) :
    QMap QString (StelLocation F) :=
  w.locations.foldl
    (fun results iter =>
      if iter.2.planetName = planetName ∧
          distanceDegrees longitude latitude iter.2.longitude iter.2.latitude ≤ radiusDegrees
      then QMap.insert iter.1 iter.2 results
      else results)
    []

/-- A stand-in for `StelLocation::distanceDegrees` on rational coordinates: the sum of the
two differences in absolute value, so 0 between a point and itself. -/
def sampleDistance (long1 lat1 long2 lat2 : ℚ) : ℚ := |long1 - long2| + |lat1 - lat2|

/-- A stand-in for the outside that reads a catalogue line as name, state and country, the
first three fields between tabs. -/
def lineExt : Ext ℚ :=
  { sampleExt with
    createFromLine := fun l =>
      match l.splitOn '\t' with
      | n :: s :: c :: _ => { sampleDefault with name := n, state := s, country := c }
      | _ => sampleDefault }

/-- The record `loadCities` makes of a data line: `createFromLine(rawline)` with the flag
`isUserLocation` set. -/
def lineRecord {F : Type} (E : Ext F) (isUserLocation : Bool) (rawline : QString) :
    StelLocation F :=
  { E.createFromLine rawline with isUserLocation := isUserLocation }

/-- A catalogue line for Springfield in Illinois. -/
def springfieldIL : QString := "Springfield\tIL\tUS\tN\t117\t39.8N\t89.6W\t180".toList

/-- A catalogue line for Springfield in Massachusetts. -/
def springfieldMA : QString := "Springfield\tMA\tUS\tN\t153\t42.1N\t72.6W\t21".toList

/-- A user location named Paris, on Earth, with its coordinates. -/
def parisOnEarth : StelLocation ℚ :=
  { paris with planetName := "Earth".toList, latitude := 4886 / 100, longitude := 235 / 100 }

/-- A location of the base catalogue with the given name and time zone. -/
def cityInZone (name tz : String) : StelLocation ℚ :=
  { sampleDefault with name := name.toList, ianaTimeZone := tz.toList, isUserLocation := false }

/-- A location of the base catalogue named Paris, on Earth, at the same place. -/
def parisBaseOnEarth : StelLocation ℚ :=
  { parisOnEarth with isUserLocation := false, population := 2110 }

/-! ## The key of an entry and the identifier of its record -/

/-- The consistency of keys and identifiers: every item of the map is stored under the
identifier that `getID` computes from the record as it is now. -/
def KeysAreIDs {F : Type} (E : Ext F) (m : QMap QString (StelLocation F)) : Prop :=
  ∀ kv ∈ m, kv.1 = E.getID kv.2

/-- A catalogue line for Springfield in Missouri. -/
def springfieldMO : QString := "Springfield\tMO\tUS\tN\t160\t37.2N\t93.3W\t396".toList

/-- A record for Marseille that carries the flag of the base catalogue, as a record obtained
from a stored base location and renamed does. -/
def marseille : StelLocation ℚ :=
  { sampleDefault with name := "Marseille".toList, country := "France".toList, role := 'R',
                       isUserLocation := false }

/-- A manager holding the user location Lyon, with the user catalogue that lists it. -/
def mgrLyon : StelLocationMgr ℚ :=
  { locations := [(sampleExt.getID lyon, lyon)], lastResortLocation := sampleDefault,
    userFile := sampleExt.serializeToLine lyon ++ ['\n'], trace := [] }

/-! ## The shape of a coordinate descriptor -/

/-- The shape of a coordinate descriptor: white space `ws0`, a name `n` without white space
at its ends, white space `ws1` (not empty when there is a name), the latitude term `la`, at
most one white space character `ws2`, the comma, white space `ws3`, the longitude term
`lo`, white space `ws4`; the two terms are not empty and hold neither white space nor a
comma. Each of the white space parts and the name may be empty. -/
def CoordinateShape (isSpace : Char → Bool) (ws0 n ws1 la ws2 ws3 lo ws4 : QString) : Prop :=
  isSpace ',' = false ∧
  (∀ c ∈ ws0, isSpace c = true) ∧ (∀ c ∈ ws1, isSpace c = true) ∧
  (∀ c ∈ ws2, isSpace c = true) ∧ (∀ c ∈ ws3, isSpace c = true) ∧
  (∀ c ∈ ws4, isSpace c = true) ∧
  ws2.length ≤ 1 ∧
  trimmed isSpace n = n ∧ (n ≠ [] → ws1 ≠ []) ∧
  la ≠ [] ∧ (∀ c ∈ la, isSpace c = false ∧ c ≠ ',') ∧
  lo ≠ [] ∧ (∀ c ∈ lo, isSpace c = false ∧ c ≠ ',')

instance (isSpace : Char → Bool) (ws0 n ws1 la ws2 ws3 lo ws4 : QString) :
    Decidable (CoordinateShape isSpace ws0 n ws1 la ws2 ws3 lo ws4) := by
  unfold CoordinateShape; infer_instance

/-! ## Lemmas on QMap -/

namespace QMap

variable {K V : Type} [LinearOrder K]

theorem find_insert_self (k : K) (v : V) (m : QMap K V) : find k (insert k v m) = some v := by
  induction m with
  | nil => simp [insert, find]
  | cons hd tl ih =>
    obtain ⟨k1, v1⟩ := hd
    rcases lt_trichotomy k1 k with h | h | h
    · simp [insert, find, h, ih]
    · subst h; simp [insert, find]
    · simp [insert, find, h, not_lt_of_gt h]

theorem find_insert_ne {k k2 : K} (h2 : k2 ≠ k) (v : V) (m : QMap K V) :
    find k2 (insert k v m) = find k2 m := by
  induction m with
  | nil =>
    rcases lt_trichotomy k k2 with h | h | h
    · simp [insert, find, h]
    · exact absurd h.symm h2
    · simp [insert, find, h, not_lt_of_gt h]
  | cons hd tl ih =>
    obtain ⟨k1, v1⟩ := hd
    rcases lt_trichotomy k1 k with h | h | h
    · simp [insert, find, h, ih]
    · subst h
      rcases lt_trichotomy k1 k2 with h3 | h3 | h3
      · simp [insert, find, h3]
      · exact absurd h3.symm h2
      · simp [insert, find, h3, not_lt_of_gt h3]
    · simp only [insert, not_lt_of_gt h, h, if_true, if_false]
      rcases lt_trichotomy k k2 with h3 | h3 | h3
      · simp [find, h3]
      · exact absurd h3.symm h2
      · simp [find, h3, not_lt_of_gt h3, not_lt_of_gt (h3.trans h), h3.trans h]

theorem find_insertMulti_self (k : K) (v : V) (m : QMap K V) :
    find k (insertMulti k v m) = some v := by
  induction m with
  | nil => simp [insertMulti, find]
  | cons hd tl ih =>
    obtain ⟨k1, v1⟩ := hd
    by_cases h : k1 < k
    · simp [insertMulti, find, h, ih]
    · simp [insertMulti, find, h]

theorem find_insertMulti_ne {k k2 : K} (h2 : k2 ≠ k) (v : V) (m : QMap K V) :
    find k2 (insertMulti k v m) = find k2 m := by
  induction m with
  | nil =>
    rcases lt_trichotomy k k2 with h | h | h
    · simp [insertMulti, find, h]
    · exact absurd h.symm h2
    · simp [insertMulti, find, h, not_lt_of_gt h]
  | cons hd tl ih =>
    obtain ⟨k1, v1⟩ := hd
    by_cases h : k1 < k
    · simp [insertMulti, find, h, ih]
    · simp only [insertMulti, h, if_false]
      have hk : k ≤ k1 := not_lt.mp h
      rcases lt_trichotomy k k2 with h3 | h3 | h3
      · simp [find, h3]
      · exact absurd h3.symm h2
      · have h4 : k2 < k1 := lt_of_lt_of_le h3 hk
        simp [find, h3, not_lt_of_gt h3, not_lt_of_gt h4, h4]

/-- An insertion under a key that is not found adds one item and keeps the others. -/
theorem insert_perm {k : K} {m : QMap K V} (h : find k m = none) (v : V) :
    List.Perm (insert k v m) ((k, v) :: m) := by
  induction m with
  | nil => simp [insert]
  | cons hd tl ih =>
    obtain ⟨k1, v1⟩ := hd
    rcases lt_trichotomy k1 k with h1 | h1 | h1
    · simp only [find, h1, if_true] at h
      simp only [insert, h1, if_true]
      exact ((ih h).cons (k1, v1)).trans (List.Perm.swap _ _ _)
    · subst h1; simp [find] at h
    · simp [insert, h1, not_lt_of_gt h1]

theorem insertMulti_perm (k : K) (v : V) (m : QMap K V) :
    List.Perm (insertMulti k v m) ((k, v) :: m) := by
  induction m with
  | nil => simp [insertMulti]
  | cons hd tl ih =>
    obtain ⟨k1, v1⟩ := hd
    by_cases h : k1 < k
    · simp only [insertMulti, h, if_true]
      exact (ih.cons (k1, v1)).trans (List.Perm.swap _ _ _)
    · simp [insertMulti, h]

/-- In a sorted map whose keys all exceed `k` nothing is removed under `k`. -/
theorem remove_of_lt {k : K} {m : QMap K V} (h : ∀ kv ∈ m, k < kv.1) : remove k m = m := by
  cases m with
  | nil => rfl
  | cons hd tl =>
    obtain ⟨k1, v1⟩ := hd
    have h1 : k < k1 := h (k1, v1) (List.mem_cons_self _ _)
    simp [remove, h1, not_lt_of_gt h1]

/-- On a sorted map `remove` leaves exactly the items stored under other keys; `p` is any
test for a key other than `k`. -/
theorem remove_eq_filter {m : QMap K V} (hm : Sorted m) (k : K) (p : K × V → Bool)
    (hp : ∀ kv, p kv = true ↔ kv.1 ≠ k) : remove k m = m.filter p := by
  induction m with
  | nil => rfl
  | cons hd tl ih =>
    obtain ⟨k1, v1⟩ := hd
    have htl : Sorted tl := (List.pairwise_cons.mp hm).2
    have hall : ∀ kv ∈ tl, k1 ≤ kv.1 := (List.pairwise_cons.mp hm).1
    rcases lt_trichotomy k1 k with h | h | h
    · have h1 : p (k1, v1) = true := (hp _).mpr (ne_of_lt h)
      simp [remove, h, ih htl, List.filter_cons, h1]
    · subst h
      have h1 : p (k1, v1) = false := by
        cases hv : p (k1, v1) with
        | false => rfl
        | true => exact absurd rfl ((hp _).mp hv)
      simp [remove, ih htl, List.filter_cons, h1]
    · have hf : tl.filter p = tl := by
        apply List.filter_eq_self.mpr
        intro kv hkv
        exact (hp kv).mpr (ne_of_gt (lt_of_lt_of_le h (hall kv hkv)))
      have h1 : p (k1, v1) = true := (hp _).mpr (ne_of_gt h)
      rw [List.filter_cons, hf]
      simp [remove, h, not_lt_of_gt h, h1]

theorem count_insertMulti (k k2 : K) (v : V) (m : QMap K V) :
    count k (insertMulti k2 v m) = count k m + (if k2 = k then 1 else 0) := by
  unfold count
  rw [(insertMulti_perm k2 v m).filter _ |>.length_eq]
  by_cases h : k2 = k <;> simp [List.filter_cons, h]

theorem count_unite (k : K) (m other : QMap K V) :
    count k (unite m other) = count k m + count k other := by
  induction other with
  | nil => simp [unite, count]
  | cons hd tl ih =>
    have hstep : unite m (hd :: tl) = insertMulti hd.1 hd.2 (unite m tl) := rfl
    rw [hstep, count_insertMulti, ih]
    by_cases h : hd.1 = k
    · simp [count, List.filter_cons, h]; omega
    · simp [count, List.filter_cons, h]

/-- After `unite` a key found in `other` is looked up to its item of `other`. -/
theorem find_unite_of_find {k : K} {v : V} (m : QMap K V) {other : QMap K V}
    (h : find k other = some v) : find k (unite m other) = some v := by
  induction other with
  | nil => simp [find] at h
  | cons hd tl ih =>
    obtain ⟨k1, v1⟩ := hd
    have hstep : unite m ((k1, v1) :: tl) = insertMulti k1 v1 (unite m tl) := rfl
    rw [hstep]
    rcases lt_trichotomy k1 k with h1 | h1 | h1
    · simp only [find, h1, if_true] at h
      rw [find_insertMulti_ne (ne_of_gt h1), ih h]
    · subst h1
      simp only [find, lt_irrefl, if_false] at h
      rw [find_insertMulti_self, ← h]
    · simp [find, h1, not_lt_of_gt h1] at h

/-- The keys after `insert`: the new key or a key that was there. -/
theorem key_mem_insert {k : K} {v : V} {m : QMap K V} {kv : K × V}
    (h : kv ∈ insert k v m) : kv.1 = k ∨ ∃ kv1 ∈ m, kv1.1 = kv.1 := by
  induction m with
  | nil =>
    simp only [insert, List.mem_singleton] at h
    exact Or.inl (by rw [h])
  | cons hd tl ih =>
    obtain ⟨k1, v1⟩ := hd
    rcases lt_trichotomy k1 k with h1 | h1 | h1
    · simp only [insert, h1, if_true, List.mem_cons] at h
      rcases h with h | h
      · exact Or.inr ⟨(k1, v1), List.mem_cons_self _ _, by rw [h]⟩
      · rcases ih h with h | ⟨x, hx, hk⟩
        · exact Or.inl h
        · exact Or.inr ⟨x, List.mem_cons_of_mem _ hx, hk⟩
    · subst h1
      simp only [insert, lt_irrefl, if_false, List.mem_cons] at h
      rcases h with h | h
      · exact Or.inl (by rw [h])
      · exact Or.inr ⟨kv, List.mem_cons_of_mem _ h, rfl⟩
    · simp only [insert, not_lt_of_gt h1, h1, if_true, if_false, List.mem_cons] at h
      rcases h with h | h | h
      · exact Or.inl (by rw [h])
      · exact Or.inr ⟨(k1, v1), List.mem_cons_self _ _, by rw [h]⟩
      · exact Or.inr ⟨kv, List.mem_cons_of_mem _ h, rfl⟩

/-- The operation `insert` keeps the map sorted. -/
theorem insert_sorted (k : K) (v : V) {m : QMap K V} (hm : Sorted m) :
    Sorted (insert k v m) := by
  induction m with
  | nil => simp [insert, Sorted]
  | cons hd tl ih =>
    obtain ⟨k1, v1⟩ := hd
    have htl : Sorted tl := (List.pairwise_cons.mp hm).2
    have hall : ∀ kv ∈ tl, k1 ≤ kv.1 := (List.pairwise_cons.mp hm).1
    rcases lt_trichotomy k1 k with h1 | h1 | h1
    · simp only [insert, h1, if_true]
      refine List.pairwise_cons.mpr ⟨?_, ih htl⟩
      intro kv hkv
      rcases key_mem_insert hkv with h | ⟨x, hx, hk⟩
      · rw [h]; exact le_of_lt h1
      · rw [← hk]; exact hall x hx
    · subst h1
      simp only [insert, lt_irrefl, if_false]
      exact List.pairwise_cons.mpr ⟨hall, htl⟩
    · simp only [insert, not_lt_of_gt h1, h1, if_true, if_false]
      refine List.pairwise_cons.mpr ⟨?_, hm⟩
      intro kv hkv
      rcases List.mem_cons.mp hkv with h | h
      · rw [h]; exact le_of_lt h1
      · exact le_trans (le_of_lt h1) (hall kv h)

/-- The operation `insertMulti` keeps the map sorted. -/
theorem insertMulti_sorted (k : K) (v : V) {m : QMap K V} (hm : Sorted m) :
    Sorted (insertMulti k v m) := by
  induction m with
  | nil => simp [insertMulti, Sorted]
  | cons hd tl ih =>
    obtain ⟨k1, v1⟩ := hd
    have htl : Sorted tl := (List.pairwise_cons.mp hm).2
    have hall : ∀ kv ∈ tl, k1 ≤ kv.1 := (List.pairwise_cons.mp hm).1
    by_cases h1 : k1 < k
    · simp only [insertMulti, h1, if_true]
      refine List.pairwise_cons.mpr ⟨?_, ih htl⟩
      intro kv hkv
      rcases List.mem_cons.mp ((insertMulti_perm k v tl).mem_iff.mp hkv) with h | h
      · rw [h]; exact le_of_lt h1
      · exact hall kv h
    · simp only [insertMulti, h1, if_false]
      refine List.pairwise_cons.mpr ⟨?_, hm⟩
      intro kv hkv
      rcases List.mem_cons.mp hkv with h | h
      · rw [h]; exact not_lt.mp h1
      · exact le_trans (not_lt.mp h1) (hall kv h)

/-- The operation `remove` keeps the map sorted. -/
theorem remove_sorted (k : K) {m : QMap K V} (hm : Sorted m) : Sorted (remove k m) := by
  rw [remove_eq_filter hm k (fun kv => decide (kv.1 ≠ k)) (fun kv => by simp)]
  exact List.Pairwise.filter _ hm

/-- The operation `unite` keeps the map sorted. -/
theorem unite_sorted {m : QMap K V} (hm : Sorted m) (other : QMap K V) :
    Sorted (unite m other) := by
  induction other with
  | nil => exact hm
  | cons hd tl ih => exact insertMulti_sorted hd.1 hd.2 ih

/-- A key that is found has an item in the map. -/
theorem count_pos_of_find {k : K} {v : V} {m : QMap K V} (h : find k m = some v) :
    1 ≤ count k m := by
  induction m with
  | nil => simp [find] at h
  | cons hd tl ih =>
    obtain ⟨k1, v1⟩ := hd
    rcases lt_trichotomy k1 k with h1 | h1 | h1
    · simp only [find, h1, if_true] at h
      have := ih h
      simp only [count, List.filter_cons] at this ⊢
      split
      · simp
      · simpa using this
    · subst h1; simp [count, List.filter_cons]
    · simp [find, h1, not_lt_of_gt h1] at h

/-- Lookup after a run of insertions: the last inserted value under the key, or else what
was there before; `p` is any test for the key `k`. -/
theorem find_foldl_insert {A : Type} (key : A → K) (val : A → V) (k : K) (p : A → Bool)
    (hp : ∀ it, p it = true ↔ key it = k) (xs : List A) (m : QMap K V) :
    find k (xs.foldl (fun acc it => insert (key it) (val it) acc) m) =
      (((xs.filter p).getLast?).map val).or (find k m) := by
  induction xs using List.reverseRecOn with
  | nil => simp
  | append_singleton l a ih =>
    rw [List.foldl_append, List.filter_append]
    by_cases h : key a = k
    · have hpa : p a = true := (hp a).mpr h
      subst h
      simp [List.filter_cons, hpa, find_insert_self]
    · have hpa : p a = false := by
        cases hv : p a with
        | false => rfl
        | true => exact absurd ((hp a).mp hv) h
      have hk : k ≠ key a := fun e => h e.symm
      simp only [List.filter_cons, hpa, List.filter_nil, List.append_nil, List.foldl_cons,
        List.foldl_nil, find_insert_ne hk]
      simpa using ih

end QMap

/-! ## Lemmas on the coordinate pattern -/

theorem mem_downFrom {i n : Nat} : i ∈ downFrom n ↔ i < n := by
  simp [downFrom]

/-- A match of `(.+),(.+)` splits the string at a comma with text on both sides. -/
theorem matchLatLong_sound {s a b : QString} (h : matchLatLong s = some (a, b)) :
    a ≠ [] ∧ b ≠ [] ∧ s = a ++ ',' :: b := by
  obtain ⟨i, _, hf⟩ := List.exists_of_findSome?_eq_some h
  split at hf
  · rename_i hc
    obtain ⟨h0, h1, h2⟩ := hc
    simp only [Option.some.injEq, Prod.mk.injEq] at hf
    obtain ⟨ha, hb⟩ := hf
    obtain ⟨hlt, hget⟩ := List.getElem?_eq_some.mp h2
    refine ⟨?_, ?_, ?_⟩
    · intro e
      have hl : (s.take i).length = 0 := by rw [ha, e]; rfl
      rw [List.length_take] at hl
      omega
    · intro e
      have hl : (s.drop (i + 1)).length = 0 := by rw [hb, e]; rfl
      rw [List.length_drop] at hl
      omega
    · rw [← ha, ← hb, ← hget, ← List.drop_eq_getElem_cons hlt, List.take_append_drop]
  · exact absurd hf (by simp)

/-- A comma with text on both sides is enough for `(.+),(.+)` to match. -/
theorem matchLatLong_complete {a b : QString} (ha : a ≠ []) (hb : b ≠ []) :
    matchLatLong (a ++ ',' :: b) ≠ none := by
  intro h
  have hall := List.findSome?_eq_none_iff.mp h
  have hlen : a.length < (a ++ ',' :: b).length := by simp
  have := hall a.length (mem_downFrom.mpr hlen)
  have ha0 : 0 < a.length := List.length_pos.mpr ha
  have hb0 : 0 < b.length := List.length_pos.mpr hb
  have hc : 0 < a.length ∧ a.length + 1 < (a ++ ',' :: b).length ∧
      (a ++ ',' :: b)[a.length]? = some ',' := by
    refine ⟨ha0, ?_, ?_⟩
    · simp only [List.length_append, List.length_cons]; omega
    · rw [List.getElem?_append_right (le_refl _)]; simp
  rw [if_pos hc] at this
  exact absurd this (by simp)

/-- A match of `\s+(.+),(.+)` starts with a run of white space. -/
theorem matchSpaceLatLong_sound {isSpace : Char → Bool} {s a b : QString}
    (h : matchSpaceLatLong isSpace s = some (a, b)) :
    ∃ ws, ws ≠ [] ∧ (∀ c ∈ ws, isSpace c = true) ∧ a ≠ [] ∧ b ≠ [] ∧
      s = ws ++ a ++ ',' :: b := by
  obtain ⟨j, hj, hf⟩ := List.exists_of_findSome?_eq_some h
  have hj2 : j < (s.takeWhile isSpace).length := mem_downFrom.mp hj
  obtain ⟨ha, hb, hs⟩ := matchLatLong_sound hf
  have hle : (s.takeWhile isSpace).length ≤ s.length := (List.takeWhile_prefix isSpace).length_le
  refine ⟨s.take (j + 1), ?_, ?_, ha, hb, ?_⟩
  · intro e
    have hl : (s.take (j + 1)).length = 0 := by rw [e]; rfl
    rw [List.length_take] at hl
    omega
  · intro c hc
    have hpre : s.take (j + 1) = (s.takeWhile isSpace).take (j + 1) := by
      conv_lhs => rw [← List.takeWhile_append_dropWhile isSpace s]
      rw [List.take_append_of_le_length (by omega)]
    rw [hpre] at hc
    exact List.mem_takeWhile_imp (List.mem_of_mem_take hc)
  · rw [List.append_assoc, ← hs, List.take_append_drop]

/-- The capture groups of the coordinate pattern, when it matches: the two coordinate
terms are not empty and sit around a comma at the end of the string, and a name, when
there is one, is parted from them by white space. -/
theorem exactMatchCoordinates_sound {isSpace : Char → Bool} {s n la lo : QString}
    (h : exactMatchCoordinates isSpace s = some (n, la, lo)) :
    la ≠ [] ∧ lo ≠ [] ∧
      ((n = [] ∧ s = la ++ ',' :: lo) ∨
        (n ≠ [] ∧ ∃ ws, ws ≠ [] ∧ (∀ c ∈ ws, isSpace c = true) ∧
          s = n ++ ws ++ la ++ ',' :: lo)) := by
  unfold exactMatchCoordinates at h
  split at h
  · rename_i r hr
    obtain ⟨i, hi, hf⟩ := List.exists_of_findSome?_eq_some hr
    have hi2 : i < s.length := mem_downFrom.mp hi
    cases hm : matchSpaceLatLong isSpace (s.drop (i + 1)) with
    | none => simp [hm] at hf
    | some ab =>
      obtain ⟨a, b⟩ := ab
      simp only [hm, Option.map_some', Option.some.injEq] at hf
      rw [← hf] at h
      simp only [Option.some.injEq, Prod.mk.injEq] at h
      obtain ⟨hn, hla, hlo⟩ := h
      subst hla hlo
      obtain ⟨ws, hws, hsp, ha, hb, hs⟩ := matchSpaceLatLong_sound hm
      refine ⟨ha, hb, Or.inr ⟨?_, ws, hws, hsp, ?_⟩⟩
      · intro e
        have hl : (s.take (i + 1)).length = 0 := by rw [hn, e]; rfl
        rw [List.length_take] at hl
        omega
      · rw [← hn, List.append_assoc, List.append_assoc, ← List.append_assoc ws, ← hs,
          List.take_append_drop]
  · cases hm : matchLatLong s with
    | none => simp [hm] at h
    | some ab =>
      obtain ⟨a, b⟩ := ab
      simp only [hm, Option.map_some', Option.some.injEq, Prod.mk.injEq] at h
      obtain ⟨hn, hla, hlo⟩ := h
      subst hla hlo
      obtain ⟨ha, hb, hs⟩ := matchLatLong_sound hm
      exact ⟨ha, hb, Or.inl ⟨hn.symm, hs⟩⟩

/-- The coordinate pattern fails exactly on the strings that have no comma with text on
both sides; every other string matches, with or without a name. -/
theorem exactMatchCoordinates_eq_none_iff (isSpace : Char → Bool) (s : QString) :
    exactMatchCoordinates isSpace s = none ↔
      ¬ ∃ a b : QString, a ≠ [] ∧ b ≠ [] ∧ s = a ++ ',' :: b := by
  constructor
  · intro h
    rintro ⟨a, b, ha, hb, hs⟩
    unfold exactMatchCoordinates at h
    split at h
    · exact absurd h (by simp)
    · rw [hs] at h
      cases hm : matchLatLong (a ++ ',' :: b) with
      | none => exact matchLatLong_complete ha hb hm
      | some ab => simp [hm] at h
  · intro h
    cases hm : exactMatchCoordinates isSpace s with
    | none => rfl
    | some c =>
      obtain ⟨n, la, lo⟩ := c
      obtain ⟨hla, hlo, hs | ⟨_, ws, _, _, hs⟩⟩ := exactMatchCoordinates_sound hm
      · exact absurd ⟨la, lo, hla, hlo, hs.2⟩ h
      · refine absurd ⟨n ++ ws ++ la, lo, ?_, hlo, hs⟩ h
        simp [hla]

/-! ## The captures on a descriptor of the coordinate shape -/

theorem downFrom_succ (n : Nat) : downFrom (n + 1) = n :: downFrom n := by
  simp [downFrom, List.range_succ]

/-- Candidates that fail are passed over by the backtracking search. -/
theorem findSome_downFrom_skip {α : Type} (f : Nat → Option α) (m n : Nat) (hmn : m ≤ n)
    (h : ∀ i, m ≤ i → i < n → f i = none) :
    (downFrom n).findSome? f = (downFrom m).findSome? f := by
  induction n with
  | zero =>
    have : m = 0 := by omega
    subst this; rfl
  | succ n ih =>
    by_cases hm : m = n + 1
    · subst hm; rfl
    · rw [downFrom_succ, List.findSome?_cons, h n (by omega) (by omega)]
      exact ih (by omega) (fun i h1 h2 => h i h1 (by omega))

theorem dropWhile_append_of_all {p : Char → Bool} {a : QString}
    (ha : ∀ c ∈ a, p c = true) (y : QString) : (a ++ y).dropWhile p = y.dropWhile p := by
  induction a with
  | nil => rfl
  | cons c tl ih =>
    have hc : p c = true := ha c (List.mem_cons_self _ _)
    simp only [List.cons_append, List.dropWhile_cons, hc, if_true]
    exact ih (fun d hd => ha d (List.mem_cons_of_mem _ hd))

/-- White space around a text does not change its trimmed form. -/
theorem trimmed_pad (isSpace : Char → Bool) {a b : QString}
    (ha : ∀ c ∈ a, isSpace c = true) (hb : ∀ c ∈ b, isSpace c = true) (x : QString) :
    trimmed isSpace (a ++ x ++ b) = trimmed isSpace x := by
  have hbr : ∀ c ∈ b.reverse, isSpace c = true := fun c hc => hb c (List.mem_reverse.mp hc)
  unfold trimmed
  rw [List.append_assoc, dropWhile_append_of_all ha, List.dropWhile_append]
  cases hd : x.dropWhile isSpace with
  | nil =>
    have hb0 : b.dropWhile isSpace = [] := List.dropWhile_eq_nil_iff.mpr hb
    simp [hb0]
  | cons c tl =>
    simp only [List.isEmpty_cons, Bool.false_eq_true, if_false, List.reverse_append]
    rw [dropWhile_append_of_all hbr]

/-- A text without white space is its own trimmed form. -/
theorem trimmed_of_no_space (isSpace : Char → Bool) {x : QString}
    (hx : ∀ c ∈ x, isSpace c = false) : trimmed isSpace x = x := by
  have h1 : ∀ y : QString, (∀ c ∈ y, isSpace c = false) → y.dropWhile isSpace = y := by
    intro y hy
    cases y with
    | nil => rfl
    | cons c tl => simp [List.dropWhile_cons, hy c (List.mem_cons_self _ _)]
  unfold trimmed
  rw [h1 x hx, h1 x.reverse (fun c hc => hx c (List.mem_reverse.mp hc)), List.reverse_reverse]

/-- A text of white space only has the empty trimmed form. -/
theorem trimmed_of_all_space (isSpace : Char → Bool) {x : QString}
    (hx : ∀ c ∈ x, isSpace c = true) : trimmed isSpace x = [] := by
  unfold trimmed
  rw [List.dropWhile_eq_nil_iff.mpr hx]
  rfl

/-- A string with one comma splits at it in one way only. -/
theorem append_comma_inj {X T a b : QString} (hX : ',' ∉ X) (hT : ',' ∉ T)
    (h : X ++ ',' :: T = a ++ ',' :: b) : a = X ∧ b = T := by
  induction X generalizing a with
  | nil =>
    cases a with
    | nil => simp at h; exact ⟨rfl, h.symm⟩
    | cons c a2 =>
      simp only [List.nil_append, List.cons_append, List.cons.injEq] at h
      exact absurd (by rw [h.2]; simp) hT
  | cons x X2 ih =>
    cases a with
    | nil =>
      simp only [List.nil_append, List.cons_append, List.cons.injEq] at h
      exact absurd (by rw [h.1]; exact List.mem_cons_self _ _) hX
    | cons c a2 =>
      simp only [List.cons_append, List.cons.injEq] at h
      obtain ⟨h1, h2⟩ := ih (fun hm => hX (List.mem_cons_of_mem _ hm)) h.2
      exact ⟨by rw [h.1, h1], h2⟩

/-- With one comma in the string, `(.+),(.+)` captures the text before it and the text
after it. -/
theorem matchLatLong_one_comma {X T : QString} (hX0 : X ≠ []) (hT0 : T ≠ [])
    (hX : ',' ∉ X) (hT : ',' ∉ T) : matchLatLong (X ++ ',' :: T) = some (X, T) := by
  cases hm : matchLatLong (X ++ ',' :: T) with
  | none => exact absurd hm (matchLatLong_complete hX0 hT0)
  | some ab =>
    obtain ⟨a, b⟩ := ab
    obtain ⟨_, _, hs⟩ := matchLatLong_sound hm
    obtain ⟨h1, h2⟩ := append_comma_inj hX hT hs
    rw [h1, h2]

/-- A string that does not start with white space has no match of `\s+(.+),(.+)`. -/
theorem matchSpaceLatLong_head {isSpace : Char → Bool} {t : QString}
    (h : ∀ c ∈ t.head?, isSpace c = false) : matchSpaceLatLong isSpace t = none := by
  cases hm : matchSpaceLatLong isSpace t with
  | none => rfl
  | some ab =>
    obtain ⟨a, b⟩ := ab
    obtain ⟨ws, hws, hsp, _, _, hs⟩ := matchSpaceLatLong_sound hm
    cases ws with
    | nil => exact absurd rfl hws
    | cons w ws2 =>
      have h1 := h w (by rw [hs]; simp)
      rw [hsp w (List.mem_cons_self _ _)] at h1
      exact absurd h1 (by simp)

/-- A string without a comma from its third character on has no match of
`\s+(.+),(.+)`. -/
theorem matchSpaceLatLong_no_comma {isSpace : Char → Bool} {t : QString}
    (h : ',' ∉ t.drop 2) : matchSpaceLatLong isSpace t = none := by
  cases hm : matchSpaceLatLong isSpace t with
  | none => rfl
  | some ab =>
    obtain ⟨a, b⟩ := ab
    obtain ⟨ws, hws, _, ha, _, hs⟩ := matchSpaceLatLong_sound hm
    exfalso
    apply h
    rw [hs]
    cases ws with
    | nil => exact absurd rfl hws
    | cons w ws2 =>
      cases a with
      | nil => exact absurd rfl ha
      | cons a0 a2 =>
        cases ws2 with
        | nil => simp
        | cons w1 ws3 => simp

/-- No tail of the two coordinate terms has a match of `\s+(.+),(.+)`, when at most one
white space character stands between the latitude term and the comma. -/
theorem matchSpaceLatLong_drop_terms {isSpace : Char → Bool} {la ws2 T : QString}
    (hla : ∀ c ∈ la, isSpace c = false) (hws2 : ws2.length ≤ 1) (hT : ',' ∉ T) (k : Nat) :
    matchSpaceLatLong isSpace ((la ++ ws2 ++ ',' :: T).drop k) = none := by
  by_cases hk : k < la.length
  · apply matchSpaceLatLong_head
    intro c hc
    rw [List.head?_drop, List.append_assoc, List.getElem?_append_left hk] at hc
    rw [List.getElem?_eq_getElem hk] at hc
    simp only [Option.mem_def, Option.some.injEq] at hc
    rw [← hc]
    exact hla _ (List.getElem_mem _)
  · apply matchSpaceLatLong_no_comma
    rw [List.drop_drop]
    have hsplit : la ++ ws2 ++ ',' :: T = (la ++ ws2 ++ [',']) ++ T := by simp
    have hlen : k + 2 = (la ++ ws2 ++ [',']).length + (k + 1 - la.length - ws2.length) := by
      simp only [List.length_append, List.length_singleton]
      omega
    rw [hsplit, hlen, List.drop_append]
    exact fun hm => hT (List.mem_of_mem_drop hm)

/-- One white space character in front of the two coordinate terms: `\s+(.+),(.+)`
captures the terms. -/
theorem matchSpaceLatLong_terms {isSpace : Char → Bool} {w : Char} {X T : QString}
    (hw : isSpace w = true) (hX0 : X ≠ []) (hXh : ∀ c ∈ X.head?, isSpace c = false)
    (hX : ',' ∉ X) (hT0 : T ≠ []) (hT : ',' ∉ T) :
    matchSpaceLatLong isSpace (w :: (X ++ ',' :: T)) = some (X, T) := by
  cases X with
  | nil => exact absurd rfl hX0
  | cons c X2 =>
    have hc : isSpace c = false := hXh c (by simp)
    have htw : (w :: (c :: X2 ++ ',' :: T)).takeWhile isSpace = [w] := by
      simp [List.takeWhile_cons, hw, hc]
    unfold matchSpaceLatLong
    rw [htw]
    simp only [List.length_singleton, downFrom_succ, List.findSome?_cons]
    have := matchLatLong_one_comma hX0 hT0 hX hT
    simp only [List.drop_succ_cons, List.drop_zero, this]

/-- The captures of the coordinate pattern on a name part that ends in white space,
followed by the two coordinate terms: the name part without its last character, and the
terms. -/
theorem exactMatchCoordinates_named {isSpace : Char → Bool} {P la ws2 T : QString} {w : Char}
    (hP : P ≠ []) (hw : isSpace w = true) (hcomma : isSpace ',' = false)
    (hla0 : la ≠ []) (hla : ∀ c ∈ la, isSpace c = false ∧ c ≠ ',')
    (hws2 : ∀ c ∈ ws2, isSpace c = true) (hlen : ws2.length ≤ 1)
    (hT0 : T ≠ []) (hT : ',' ∉ T) :
    exactMatchCoordinates isSpace (P ++ w :: (la ++ ws2 ++ ',' :: T)) =
      some (P, la ++ ws2, T) := by
  have hX0 : la ++ ws2 ≠ [] := by simp [hla0]
  have hXh : ∀ c ∈ (la ++ ws2).head?, isSpace c = false := by
    cases la with
    | nil => exact absurd rfl hla0
    | cons c tl =>
      intro d hd
      simp only [List.cons_append, List.head?_cons, Option.mem_def, Option.some.injEq] at hd
      rw [← hd]
      exact (hla c (List.mem_cons_self _ _)).1
  have hX : ',' ∉ la ++ ws2 := by
    intro hm
    rcases List.mem_append.mp hm with h | h
    · exact (hla _ h).2 rfl
    · rw [hws2 _ h] at hcomma; exact absurd hcomma (by simp)
  have hPlen : 0 < P.length := List.length_pos.mpr hP
  have hfind : ((downFrom (P ++ w :: (la ++ ws2 ++ ',' :: T)).length).findSome? fun i =>
      (matchSpaceLatLong isSpace ((P ++ w :: (la ++ ws2 ++ ',' :: T)).drop (i + 1))).map
        fun ab => ((P ++ w :: (la ++ ws2 ++ ',' :: T)).take (i + 1), ab.1, ab.2)) =
      some (P, la ++ ws2, T) := by
    rw [findSome_downFrom_skip _ P.length _ (by simp)]
    · obtain ⟨m, hm⟩ : ∃ m, P.length = m + 1 := ⟨P.length - 1, by omega⟩
      rw [hm, downFrom_succ, List.findSome?_cons]
      have hd : (P ++ w :: (la ++ ws2 ++ ',' :: T)).drop (m + 1) =
          w :: (la ++ ws2 ++ ',' :: T) := by
        rw [← hm]; simp
      have ht : (P ++ w :: (la ++ ws2 ++ ',' :: T)).take (m + 1) = P := by
        rw [← hm]; simp
      rw [hd, ht, matchSpaceLatLong_terms hw hX0 hXh hX hT0 hT]
      rfl
    · intro i hi _
      have hd : (P ++ w :: (la ++ ws2 ++ ',' :: T)).drop (i + 1) =
          (la ++ ws2 ++ ',' :: T).drop (i - P.length) := by
        have : i + 1 = (P ++ [w]).length + (i - P.length) := by
          simp only [List.length_append, List.length_singleton]; omega
        have hs : P ++ w :: (la ++ ws2 ++ ',' :: T) = (P ++ [w]) ++ (la ++ ws2 ++ ',' :: T) := by
          simp
        rw [hs, this, List.drop_append]
      rw [hd, matchSpaceLatLong_drop_terms (fun c hc => (hla c hc).1) hlen hT]
      rfl
  unfold exactMatchCoordinates
  rw [hfind]

/-- The captures of the coordinate pattern on the two coordinate terms with at most one
white space character in front: no name, and the terms. -/
theorem exactMatchCoordinates_unnamed {isSpace : Char → Bool} {P la ws2 T : QString}
    (hP : ∀ c ∈ P, isSpace c = true) (hPlen : P.length ≤ 1) (hcomma : isSpace ',' = false)
    (hla0 : la ≠ []) (hla : ∀ c ∈ la, isSpace c = false ∧ c ≠ ',')
    (hws2 : ∀ c ∈ ws2, isSpace c = true) (hlen : ws2.length ≤ 1)
    (hT0 : T ≠ []) (hT : ',' ∉ T) :
    exactMatchCoordinates isSpace (P ++ (la ++ ws2 ++ ',' :: T)) =
      some ([], P ++ la ++ ws2, T) := by
  have hX0 : P ++ la ++ ws2 ≠ [] := by simp [hla0]
  have hX : ',' ∉ P ++ la ++ ws2 := by
    intro hm
    rcases List.mem_append.mp hm with h | h
    · rcases List.mem_append.mp h with h | h
      · rw [hP _ h] at hcomma; exact absurd hcomma (by simp)
      · exact (hla _ h).2 rfl
    · rw [hws2 _ h] at hcomma; exact absurd hcomma (by simp)
  have hfind : ((downFrom (P ++ (la ++ ws2 ++ ',' :: T)).length).findSome? fun i =>
      (matchSpaceLatLong isSpace ((P ++ (la ++ ws2 ++ ',' :: T)).drop (i + 1))).map
        fun ab => ((P ++ (la ++ ws2 ++ ',' :: T)).take (i + 1), ab.1, ab.2)) = none := by
    rw [List.findSome?_eq_none_iff]
    intro i _
    have hd : (P ++ (la ++ ws2 ++ ',' :: T)).drop (i + 1) =
        (la ++ ws2 ++ ',' :: T).drop (i + 1 - P.length) := by
      have : i + 1 = P.length + (i + 1 - P.length) := by omega
      conv_lhs => rw [this]
      rw [List.drop_append]
    rw [hd, matchSpaceLatLong_drop_terms (fun c hc => (hla c hc).1) hlen hT]
    rfl
  have hmatch : matchLatLong (P ++ (la ++ ws2 ++ ',' :: T)) = some (P ++ la ++ ws2, T) := by
    have := matchLatLong_one_comma hX0 hT0 hX hT
    simpa using this
  unfold exactMatchCoordinates
  rw [hfind, hmatch]
  rfl

/-- The captures of the coordinate pattern on a descriptor of the shape `CoordinateShape`:
trimmed, they are the name and the two terms. -/
theorem exactMatchCoordinates_shape {isSpace : Char → Bool}
    {ws0 n ws1 la ws2 ws3 lo ws4 : QString}
    (h : CoordinateShape isSpace ws0 n ws1 la ws2 ws3 lo ws4) :
    ∃ c1 c2 c3, exactMatchCoordinates isSpace
        (ws0 ++ n ++ ws1 ++ la ++ ws2 ++ ',' :: (ws3 ++ lo ++ ws4)) = some (c1, c2, c3) ∧
      trimmed isSpace c1 = n ∧ trimmed isSpace c2 = la ∧ trimmed isSpace c3 = lo := by
  obtain ⟨hcomma, h0, h1, h2, h3, h4, hlen, hn, hn1, hla0, hla, hlo0, hlo⟩ := h
  have hT0 : ws3 ++ lo ++ ws4 ≠ [] := by simp [hlo0]
  have hT : ',' ∉ ws3 ++ lo ++ ws4 := by
    intro hm
    rcases List.mem_append.mp hm with h | h
    · rcases List.mem_append.mp h with h | h
      · rw [h3 _ h] at hcomma; exact absurd hcomma (by simp)
      · exact (hlo _ h).2 rfl
    · rw [h4 _ h] at hcomma; exact absurd hcomma (by simp)
  have hnil : ∀ c ∈ ([] : QString), isSpace c = true := fun c hc => absurd hc (List.not_mem_nil c)
  have htlo : trimmed isSpace (ws3 ++ lo ++ ws4) = lo := by
    rw [trimmed_pad isSpace h3 h4, trimmed_of_no_space isSpace (fun c hc => (hlo c hc).1)]
  have htla : ∀ P : QString, (∀ c ∈ P, isSpace c = true) →
      trimmed isSpace (P ++ la ++ ws2) = la := by
    intro P hP
    rw [trimmed_pad isSpace hP h2, trimmed_of_no_space isSpace (fun c hc => (hla c hc).1)]
  -- the part in front of the latitude term, and its last character
  have hfront : ws0 ++ n ++ ws1 = [] ∨ ∃ P w, ws0 ++ n ++ ws1 = P ++ [w] ∧ isSpace w = true ∧
      trimmed isSpace P = n ∧ (P = [] → n = []) := by
    rcases List.eq_nil_or_concat ws1 with e1 | ⟨ws1b, w, e1⟩
    · have en : n = [] := by
        by_contra hne
        exact hn1 hne e1
      subst e1 en
      rcases List.eq_nil_or_concat ws0 with e0 | ⟨ws0b, w, e0⟩
      · subst e0; exact Or.inl rfl
      · rw [List.concat_eq_append] at e0
        subst e0
        refine Or.inr ⟨ws0b, w, by simp, h0 w (by simp), ?_, fun _ => rfl⟩
        exact trimmed_of_all_space isSpace (fun c hc => h0 c (by simp [hc]))
    · rw [List.concat_eq_append] at e1
      subst e1
      refine Or.inr ⟨ws0 ++ n ++ ws1b, w, by simp, h1 w (by simp), ?_, ?_⟩
      · rw [trimmed_pad isSpace h0 (fun c hc => h1 c (by simp [hc])), hn]
      · intro e
        simp only [List.append_eq_nil] at e
        exact e.1.2
  rcases hfront with e | ⟨P, w, e, hw, htP, hPn⟩
  · refine ⟨[], la ++ ws2, ws3 ++ lo ++ ws4, ?_, ?_, ?_, htlo⟩
    · have := exactMatchCoordinates_unnamed hnil (by simp) hcomma hla0 hla h2 hlen hT0 hT
      simp only [List.append_eq_nil] at e
      rw [e.1.1, e.1.2, e.2]
      simpa using this
    · simp only [List.append_eq_nil] at e
      rw [e.1.2]; rfl
    · simpa using htla [] hnil
  · by_cases hP : P = []
    · refine ⟨[], [w] ++ la ++ ws2, ws3 ++ lo ++ ws4, ?_, ?_, ?_, htlo⟩
      · have := @exactMatchCoordinates_unnamed isSpace [w] la ws2 (ws3 ++ lo ++ ws4)
          (fun c hc => by rw [List.mem_singleton.mp hc]; exact hw) (by simp) hcomma hla0 hla
          h2 hlen hT0 hT
        rw [e, hP]
        simpa using this
      · rw [hPn hP]; rfl
      · exact htla [w] (fun c hc => by rw [List.mem_singleton.mp hc]; exact hw)
    · refine ⟨P, la ++ ws2, ws3 ++ lo ++ ws4, ?_, htP, ?_, htlo⟩
      · have := @exactMatchCoordinates_named isSpace P la ws2 (ws3 ++ lo ++ ws4) w
          hP hw hcomma hla0 hla h2 hlen hT0 hT
        rw [e]
        simpa using this
      · simpa using htla [] hnil

/-- The loop that writes the user locations, started with `out` already written. -/
theorem foldl_userLines {F : Type} (E : Ext F) (m : QMap QString (StelLocation F))
    (out : QString) :
    m.foldl (fun out kv =>
        if kv.2.isUserLocation then out ++ (E.serializeToLine kv.2 ++ ['\n']) else out) out =
      out ++ ((m.filter fun kv => kv.2.isUserLocation).map
        fun kv => E.serializeToLine kv.2 ++ ['\n']).flatten := by
  induction m generalizing out with
  | nil => simp
  | cons hd tl ih =>
    cases h : hd.2.isUserLocation <;> simp [List.foldl_cons, List.filter_cons, h, ih]

/-- What `userLines` writes: one line for each item flagged as a user location, in the
order of the map. -/
theorem userLines_eq {F : Type} (E : Ext F) (m : QMap QString (StelLocation F)) :
    userLines E m = ((m.filter fun kv => kv.2.isUserLocation).map
      fun kv => E.serializeToLine kv.2 ++ ['\n']).flatten := by
  simpa [userLines] using foldl_userLines E m []


/-! ## Refusals of save and delete -/

section Claims

variable {F : Type}

/-- C1: a record whose role is the invalid sentinel `'!'`, or whose identifier is already a
key of the mapping, cannot be saved: `canSaveUserLocation` is false, and `saveUserLocation`
returns false and leaves the whole state as it was, so no entry is added or replaced, no
signal is emitted and nothing is written. That `isValid` rejects the sentinel role is what
is assumed of `StelLocation::isValid`. -/
theorem saveUserLocation_refused (E : Ext F) (fs : FileAnswers) (w : StelLocationMgr F)
    (r : StelLocation F)
    (hvalid : ∀ x : StelLocation F, E.isValid x = true → x.role ≠ '!')
    (h : r.role = '!' ∨ QMap.contains (E.getID r) w.locations = true) :
    canSaveUserLocation E w r = false ∧ saveUserLocation E fs w r = (false, w) := by
  have hc : canSaveUserLocation E w r = false := by
    unfold canSaveUserLocation
    rcases h with h | h
    · have hv : E.isValid r = false := by
        cases hr : E.isValid r with
        | false => rfl
        | true => exact absurd h (hvalid r hr)
      simp [hv]
    · unfold QMap.contains at h
      cases hf : QMap.find (E.getID r) w.locations with
      | none => simp [hf] at h
      | some x => simp
  exact ⟨hc, by simp [saveUserLocation, hc]⟩

/-- C2: an identifier that is absent from the mapping, or whose stored record is not a user
location, cannot be deleted: `canDeleteUserLocation` is false, and `deleteUserLocation`
returns false and leaves the whole state as it was. -/
theorem deleteUserLocation_refused (E : Ext F) (fs : FileAnswers) (w : StelLocationMgr F)
    (id : QString)
    (h : QMap.find id w.locations = none ∨
      ∃ x, QMap.find id w.locations = some x ∧ x.isUserLocation = false) :
    canDeleteUserLocation w id = false ∧ deleteUserLocation E fs w id = (false, w) := by
  have hc : canDeleteUserLocation w id = false := by
    unfold canDeleteUserLocation
    rcases h with h | ⟨x, hx, hu⟩
    · simp [h]
    · simp [hx, hu]
  exact ⟨hc, by simp [deleteUserLocation, hc]⟩

end Claims

/-- Two instances of `saveUserLocation_refused`: a record with the sentinel role on an
empty mapping, and Paris on a mapping that already holds its identifier. -/
theorem saveUserLocation_refused_witness :
    (broken.role = '!' ∧
      saveUserLocation sampleExt fsGood (mgrOf []) broken = (false, mgrOf [])) ∧
    (QMap.contains (sampleExt.getID paris)
        (mgrOf [(sampleExt.getID paris, parisBase)]).locations = true ∧
      saveUserLocation sampleExt fsGood (mgrOf [(sampleExt.getID paris, parisBase)]) paris =
        (false, mgrOf [(sampleExt.getID paris, parisBase)])) :=
  ⟨⟨by decide,
      (saveUserLocation_refused sampleExt fsGood (mgrOf []) broken
        (fun x hx => by simpa [sampleExt] using hx) (Or.inl (by decide))).2⟩,
    ⟨by decide,
      (saveUserLocation_refused sampleExt fsGood (mgrOf [(sampleExt.getID paris, parisBase)])
        paris (fun x hx => by simpa [sampleExt] using hx) (Or.inr (by decide))).2⟩⟩

/-- An instance of `deleteUserLocation_refused`: the identifier of a record of the base
catalogue. -/
theorem deleteUserLocation_refused_witness :
    QMap.find (sampleExt.getID parisBase) (mgrOf [(sampleExt.getID parisBase, parisBase)]).locations
      = some parisBase ∧ parisBase.isUserLocation = false ∧
    canDeleteUserLocation (mgrOf [(sampleExt.getID parisBase, parisBase)])
      (sampleExt.getID parisBase) = false ∧
    deleteUserLocation sampleExt fsGood (mgrOf [(sampleExt.getID parisBase, parisBase)])
      (sampleExt.getID parisBase) = (false, mgrOf [(sampleExt.getID parisBase, parisBase)]) :=
  ⟨by simp [QMap.find, mgrOf], rfl,
    deleteUserLocation_refused sampleExt fsGood _ _
      (Or.inr ⟨parisBase, by simp [QMap.find, mgrOf], rfl⟩)⟩

/-! ## The free-text resolver -/

section Resolver

variable {F : Type} [Zero F] [Add F] [Div F] [NatCast F]

/-- C3: a descriptor that is a key of the mapping resolves to exactly the record stored
under it; the coordinate pattern is not consulted, whatever the shape of the descriptor. -/
theorem locationForString_stored (E : Ext F) (m : QMap QString (StelLocation F)) (s : QString)
    (r : StelLocation F) (h : QMap.find s m = some r) : locationForString E m s = r := by
  simp [locationForString, h]

/-- The record made from the texts captured by the coordinate pattern, when `parseAngle`
accepts the two trimmed coordinate terms. -/
theorem locationForString_of_captures (E : Ext F) (m : QMap QString (StelLocation F))
    (s n la lo : QString)
    (hkey : QMap.find s m = none)
    (hpat : exactMatchCoordinates E.isSpace s = some (n, la, lo))
    (hla : (parseAngle E (trimmed E.isSpace la)).2 = true)
    (hlo : (parseAngle E (trimmed E.isSpace lo)).2 = true)
    (hdef : E.defaultLocation.role ≠ '!') :
    (locationForString E m s).latitude = (parseAngle E (trimmed E.isSpace la)).1 ∧
    (locationForString E m s).longitude = (parseAngle E (trimmed E.isSpace lo)).1 ∧
    (locationForString E m s).planetName = "Earth".toList ∧
    (locationForString E m s).name = trimmed E.isSpace n ∧
    (locationForString E m s).role ≠ '!' := by
  simp [locationForString, hkey, hpat, hla, hlo, hdef]

/-- C4, as the code has it: take a descriptor that is not a key of the mapping and is made
of white space `ws0`, a name `n` without white space at its ends, white space `ws1` (there
when the name is), a latitude term `la`, at most one white space character `ws2`, the
comma, white space `ws3`, a longitude term `lo` and white space `ws4`, where the two terms
hold neither white space nor a comma and `parseAngle` accepts them; each white space part
and the name may be empty. The returned record has the latitude `parseAngle(la)`, the
longitude `parseAngle(lo)`, the planet `Earth`, the name `n` and a role other than `'!'`.
That a default-constructed record does not carry the sentinel role is what is assumed of
the constructor of `StelLocation`. -/
theorem locationForString_coordinates (E : Ext F) (m : QMap QString (StelLocation F))
    (s ws0 n ws1 la ws2 ws3 lo ws4 : QString)
    (hs : s = ws0 ++ n ++ ws1 ++ la ++ ws2 ++ ',' :: (ws3 ++ lo ++ ws4))
    (hshape : CoordinateShape E.isSpace ws0 n ws1 la ws2 ws3 lo ws4)
    (hkey : QMap.find s m = none)
    (hla : (parseAngle E la).2 = true)
    (hlo : (parseAngle E lo).2 = true)
    (hdef : E.defaultLocation.role ≠ '!') :
    (locationForString E m s).latitude = (parseAngle E la).1 ∧
    (locationForString E m s).longitude = (parseAngle E lo).1 ∧
    (locationForString E m s).planetName = "Earth".toList ∧
    (locationForString E m s).name = n ∧
    (locationForString E m s).role ≠ '!' := by
  obtain ⟨c1, c2, c3, hpat, h1, h2, h3⟩ := exactMatchCoordinates_shape hshape
  rw [← hs] at hpat
  have h := locationForString_of_captures E m s c1 c2 c3 hkey hpat (by rw [h2]; exact hla)
    (by rw [h3]; exact hlo) hdef
  rw [h1, h2, h3] at h
  exact h

end Resolver

/-- An instance of `locationForString_stored`: the stored key has the shape of a coordinate
pair, and the stored record is returned all the same. -/
theorem locationForString_stored_witness :
    QMap.find "25.1,121.5".toList [("25.1,121.5".toList, paris)] = some paris ∧
    locationForString sampleExt [("25.1,121.5".toList, paris)] "25.1,121.5".toList = paris :=
  ⟨by simp [QMap.find],
    locationForString_stored sampleExt _ _ paris (by simp [QMap.find])⟩

/-- C4, as stated, fails: the descriptor `25.1  ,121.5`, with two blanks in front of the
comma, is a latitude term and a longitude term around a comma, and `parseAngle` accepts
both terms once trimmed; yet the pattern takes `25.1` for a name and a blank for the
latitude term, and the returned record carries the sentinel role, the latitude 0 and the
name `25.1`. -/
theorem locationForString_two_blanks :
    QMap.find "25.1  ,121.5".toList ([] : QMap QString (StelLocation ℚ)) = none ∧
    "25.1  ,121.5".toList = "25.1  ".toList ++ ',' :: "121.5".toList ∧
    trimmed sampleExt.isSpace "25.1  ".toList = "25.1".toList ∧
    trimmed sampleExt.isSpace "121.5".toList = "121.5".toList ∧
    (parseAngle sampleExt "25.1".toList).2 = true ∧
    (parseAngle sampleExt "121.5".toList).2 = true ∧
    exactMatchCoordinates sampleExt.isSpace "25.1  ,121.5".toList =
      some ("25.1".toList, " ".toList, "121.5".toList) ∧
    (locationForString sampleExt [] "25.1  ,121.5".toList).role = '!' ∧
    (locationForString sampleExt [] "25.1  ,121.5".toList).latitude = 0 ∧
    (locationForString sampleExt [] "25.1  ,121.5".toList).name = "25.1".toList :=
  ⟨by decide, by decide, by decide, by decide, by decide, by decide, by decide, by decide,
    rfl, by decide⟩

/-- Two instances of `locationForString_coordinates` on an empty mapping: the descriptor
`25.1,121.5`, and a descriptor with a name and white space around every part. -/
theorem locationForString_coordinates_witness :
    ((locationForString sampleExt [] "25.1,121.5".toList).latitude = 251 / 10 ∧
      (locationForString sampleExt [] "25.1,121.5".toList).longitude = 243 / 2 ∧
      (locationForString sampleExt [] "25.1,121.5".toList).planetName = "Earth".toList ∧
      (locationForString sampleExt [] "25.1,121.5".toList).name = [] ∧
      (locationForString sampleExt [] "25.1,121.5".toList).role ≠ '!') ∧
    ((locationForString sampleExt [] "  New York  25.1 , 121.5 ".toList).latitude = 251 / 10 ∧
      (locationForString sampleExt [] "  New York  25.1 , 121.5 ".toList).longitude = 243 / 2 ∧
      (locationForString sampleExt [] "  New York  25.1 , 121.5 ".toList).planetName =
        "Earth".toList ∧
      (locationForString sampleExt [] "  New York  25.1 , 121.5 ".toList).name =
        "New York".toList ∧
      (locationForString sampleExt [] "  New York  25.1 , 121.5 ".toList).role ≠ '!') :=
  ⟨locationForString_coordinates sampleExt [] "25.1,121.5".toList
      [] [] [] "25.1".toList [] [] "121.5".toList []
      (by decide) (by decide) rfl (by decide) (by decide) (by decide),
    locationForString_coordinates sampleExt [] "  New York  25.1 , 121.5 ".toList
      "  ".toList "New York".toList "  ".toList "25.1".toList " ".toList " ".toList
      "121.5".toList " ".toList
      (by decide) (by decide) rfl (by decide) (by decide) (by decide)⟩

section Persist

variable {F : Type}

/-- C6: a valid record whose identifier is not a key of the mapping can be saved, and when
the user catalogue is reached for append `saveUserLocation` returns true; the mapping is
the old one with the item `getID(r) -> r` added (every old item kept), lookup of the new
identifier gives `r` and every other lookup is unchanged; the signal is emitted once, before
the write; and `serializeToLine(r)` followed by a newline is appended to the file. -/
theorem saveUserLocation_saved (E : Ext F) (fs : FileAnswers) (w : StelLocationMgr F)
    (r : StelLocation F)
    (hvalid : E.isValid r = true)
    (hnew : QMap.find (E.getID r) w.locations = none)
    (hfs : fs.writable = true) :
    canSaveUserLocation E w r = true ∧
    (saveUserLocation E fs w r).1 = true ∧
    List.Perm (saveUserLocation E fs w r).2.locations ((E.getID r, r) :: w.locations) ∧
    QMap.find (E.getID r) (saveUserLocation E fs w r).2.locations = some r ∧
    (∀ k, k ≠ E.getID r →
      QMap.find k (saveUserLocation E fs w r).2.locations = QMap.find k w.locations) ∧
    (saveUserLocation E fs w r).2.trace =
      w.trace ++ [Effect.locationListChanged,
        Effect.userFileAppended (E.serializeToLine r ++ ['\n'])] ∧
    (saveUserLocation E fs w r).2.userFile = w.userFile ++ (E.serializeToLine r ++ ['\n']) := by
  have hc : canSaveUserLocation E w r = true := by simp [canSaveUserLocation, hvalid, hnew]
  have hop : fs.opened = true := by
    simp only [FileAnswers.writable, Bool.and_eq_true] at hfs; exact hfs.2
  have hpath : (!fs.found && !fs.dirExists && !fs.mkDir) = false := by
    obtain ⟨a, b, c, d⟩ := fs
    simp only [FileAnswers.writable, Bool.and_eq_true] at hfs
    have h1 := hfs.1
    revert h1
    cases a <;> cases b <;> cases c <;> simp
  have hs : saveUserLocation E fs w r =
      (true, { w with
        locations := QMap.insert (E.getID r) r w.locations
        userFile := w.userFile ++ (E.serializeToLine r ++ ['\n'])
        trace := (w.trace ++ [Effect.locationListChanged]) ++
          [Effect.userFileAppended (E.serializeToLine r ++ ['\n'])] }) := by
    simp [saveUserLocation, hc, hpath, hop]
  rw [hs]
  refine ⟨hc, rfl, QMap.insert_perm hnew r, QMap.find_insert_self _ _ _, ?_, ?_, rfl⟩
  · intro k hk
    exact QMap.find_insert_ne hk r w.locations
  · simp

/-- C7, as the code has it: when a record can be saved but the user catalogue is not
reached for append (no path and no directory to be made, or the file does not open),
`saveUserLocation` returns false, the file is untouched, and the in-memory insert and the
signal have already happened: the mapping is the old one with `getID(r) -> r` added. -/
theorem saveUserLocation_write_failure (E : Ext F) (fs : FileAnswers) (w : StelLocationMgr F)
    (r : StelLocation F)
    (hcan : canSaveUserLocation E w r = true)
    (hfs : fs.writable = false) :
    (saveUserLocation E fs w r).1 = false ∧
    List.Perm (saveUserLocation E fs w r).2.locations ((E.getID r, r) :: w.locations) ∧
    QMap.find (E.getID r) (saveUserLocation E fs w r).2.locations = some r ∧
    (saveUserLocation E fs w r).2.trace = w.trace ++ [Effect.locationListChanged] ∧
    (saveUserLocation E fs w r).2.userFile = w.userFile := by
  have hnew : QMap.find (E.getID r) w.locations = none := by
    simp only [canSaveUserLocation, Bool.and_eq_true, Option.isNone_iff_eq_none] at hcan
    exact hcan.2
  have hs : saveUserLocation E fs w r =
      (false, { w with
        locations := QMap.insert (E.getID r) r w.locations
        trace := w.trace ++ [Effect.locationListChanged] }) := by
    obtain ⟨a, b, c, d⟩ := fs
    simp only [FileAnswers.writable] at hfs
    revert hfs
    cases a <;> cases b <;> cases c <;> cases d <;> simp [saveUserLocation, hcan]
  rw [hs]
  exact ⟨rfl, QMap.insert_perm hnew r, QMap.find_insert_self _ _ _, rfl, rfl⟩

/-- C8: for an identifier whose stored record is a user location, when the user catalogue
is reached for writing `deleteUserLocation` returns true; the mapping is the old one
without the items stored under the identifier, every other item unchanged; and the file
is replaced by one line `serializeToLine(x)` plus newline for each remaining item `x`
flagged as a user location, and nothing else. -/
theorem deleteUserLocation_deleted (E : Ext F) (fs : FileAnswers) (w : StelLocationMgr F)
    (id : QString)
    (x : StelLocation F)
    (hsorted : QMap.Sorted w.locations)
    (hx : QMap.find id w.locations = some x)
    (hu : x.isUserLocation = true)
    (hfs : fs.writable = true) :
    (deleteUserLocation E fs w id).1 = true ∧
    (deleteUserLocation E fs w id).2.locations =
      w.locations.filter (fun kv => decide (kv.1 ≠ id)) ∧
    (deleteUserLocation E fs w id).2.userFile =
      (((w.locations.filter (fun kv => decide (kv.1 ≠ id))).filter
        (fun kv => kv.2.isUserLocation)).map
          (fun kv => E.serializeToLine kv.2 ++ ['\n'])).flatten ∧
    (deleteUserLocation E fs w id).2.trace =
      w.trace ++ [Effect.locationListChanged,
        Effect.userFileRewritten (deleteUserLocation E fs w id).2.userFile] := by
  have hc : canDeleteUserLocation w id = true := by simp [canDeleteUserLocation, hx, hu]
  have hop : fs.opened = true := by
    simp only [FileAnswers.writable, Bool.and_eq_true] at hfs; exact hfs.2
  have hpath : (!fs.found && !fs.dirExists && !fs.mkDir) = false := by
    obtain ⟨a, b, c, d⟩ := fs
    simp only [FileAnswers.writable, Bool.and_eq_true] at hfs
    have h1 := hfs.1
    revert h1
    cases a <;> cases b <;> cases c <;> simp
  have hs : deleteUserLocation E fs w id =
      (true, { w with
        locations := QMap.remove id w.locations
        userFile := userLines E (QMap.remove id w.locations)
        trace := (w.trace ++ [Effect.locationListChanged]) ++
          [Effect.userFileRewritten (userLines E (QMap.remove id w.locations))] }) := by
    simp [deleteUserLocation, hc, hpath, hop]
  rw [hs]
  have hrem : QMap.remove id w.locations =
      w.locations.filter (fun kv => decide (kv.1 ≠ id)) :=
    QMap.remove_eq_filter hsorted id _ (fun kv => by simp)
  refine ⟨rfl, hrem, ?_, ?_⟩
  · show userLines E (QMap.remove id w.locations) = _
    rw [userLines_eq, hrem]
  · simp

end Persist

/-- An instance of `saveUserLocation_saved`: Paris saved into a mapping that holds Lyon. -/
theorem saveUserLocation_saved_witness :
    sampleExt.isValid paris = true ∧
    QMap.find (sampleExt.getID paris) (mgrOf [(sampleExt.getID lyon, lyon)]).locations = none ∧
    fsGood.writable = true ∧
    (saveUserLocation sampleExt fsGood (mgrOf [(sampleExt.getID lyon, lyon)]) paris).1 = true ∧
    (saveUserLocation sampleExt fsGood (mgrOf [(sampleExt.getID lyon, lyon)]) paris).2.userFile
      = (mgrOf [(sampleExt.getID lyon, lyon)]).userFile ++
        (sampleExt.serializeToLine paris ++ ['\n']) :=
  have h := saveUserLocation_saved sampleExt fsGood (mgrOf [(sampleExt.getID lyon, lyon)]) paris
    (by decide) (by decide) (by decide)
  ⟨by decide, by decide, by decide, h.2.1, h.2.2.2.2.2.2⟩

/-- C7, as stated, fails: with the user catalogue not opening, `saveUserLocation` returns
false on a record that can be saved, and the mapping, empty before the call, holds the
record afterwards. -/
theorem saveUserLocation_not_atomic :
    canSaveUserLocation sampleExt (mgrOf []) paris = true ∧
    fsNoOpen.writable = false ∧
    (saveUserLocation sampleExt fsNoOpen (mgrOf []) paris).1 = false ∧
    (mgrOf []).locations = [] ∧
    (saveUserLocation sampleExt fsNoOpen (mgrOf []) paris).2.locations =
      [("Paris, France".toList, paris)] := by
  refine ⟨by decide, by decide, by decide, rfl, ?_⟩
  simp [saveUserLocation, canSaveUserLocation, sampleExt, mgrOf, QMap.find, QMap.insert,
    paris, sampleDefault, fsNoOpen]

/-- An instance of `saveUserLocation_write_failure`: Paris saved while the file does not
open. -/
theorem saveUserLocation_write_failure_witness :
    canSaveUserLocation sampleExt (mgrOf []) paris = true ∧
    fsNoOpen.writable = false ∧
    (saveUserLocation sampleExt fsNoOpen (mgrOf []) paris).1 = false ∧
    QMap.find (sampleExt.getID paris)
      (saveUserLocation sampleExt fsNoOpen (mgrOf []) paris).2.locations = some paris :=
  have h := saveUserLocation_write_failure sampleExt fsNoOpen (mgrOf []) paris
    (by decide) (by decide)
  ⟨by decide, by decide, h.1, h.2.2.1⟩

/-- An instance of `deleteUserLocation_deleted`: Paris deleted from a mapping that holds
Lyon and Paris. -/
theorem deleteUserLocation_deleted_witness :
    QMap.Sorted (mgrOf [(sampleExt.getID lyon, lyon), (sampleExt.getID paris, paris)]).locations ∧
    QMap.find (sampleExt.getID paris)
      (mgrOf [(sampleExt.getID lyon, lyon), (sampleExt.getID paris, paris)]).locations
      = some paris ∧
    paris.isUserLocation = true ∧
    fsGood.writable = true ∧
    (deleteUserLocation sampleExt fsGood
      (mgrOf [(sampleExt.getID lyon, lyon), (sampleExt.getID paris, paris)])
      (sampleExt.getID paris)).1 = true :=
  have hs : QMap.Sorted
      (mgrOf [(sampleExt.getID lyon, lyon), (sampleExt.getID paris, paris)]).locations := by
    decide
  ⟨hs, by decide, rfl, by decide,
    (deleteUserLocation_deleted sampleExt fsGood _ (sampleExt.getID paris) paris hs
      (by decide) rfl (by decide)).1⟩

/-! ## Replacing and merging -/

section Merge

variable {F : Type}

end Merge

section Construct

variable {F : Type} [Zero F] [Add F] [Div F] [NatCast F]

/-- C10, as the code has it: when the base mapping and the user mapping share an identifier
`k`, lookup of `k` in the mapping built by the constructor returns the user record, and
the mapping holds every item of both mappings under `k`, hence at least two: `unite` adds
the user items in front of the base items and replaces none. -/
theorem construct_user_wins (E : Ext F) (base user : QMap QString (StelLocation F))
    (lastLocation userFile : QString) (k : QString) (b u : StelLocation F)
    (hb : QMap.find k base = some b) (hu : QMap.find k user = some u) :
    QMap.find k (construct E base user lastLocation userFile).locations = some u ∧
    QMap.count k (construct E base user lastLocation userFile).locations =
      QMap.count k base + QMap.count k user ∧
    2 ≤ QMap.count k (construct E base user lastLocation userFile).locations := by
  have hcount : QMap.count k (construct E base user lastLocation userFile).locations =
      QMap.count k base + QMap.count k user := QMap.count_unite k base user
  refine ⟨QMap.find_unite_of_find base hu, hcount, ?_⟩
  have h1 := QMap.count_pos_of_find hb
  have h2 := QMap.count_pos_of_find hu
  omega

end Construct

/-- C10, as stated, fails: with Paris both in the base mapping and in the user mapping, the
mapping built by the constructor holds two items under the identifier of Paris, the user
record in front of the base record. -/
theorem construct_keeps_both :
    (construct sampleExt [(sampleExt.getID parisBase, parisBase)]
      [(sampleExt.getID paris, paris)] "Paris, France".toList []).locations =
      [("Paris, France".toList, paris), ("Paris, France".toList, parisBase)] ∧
    QMap.count "Paris, France".toList
      (construct sampleExt [(sampleExt.getID parisBase, parisBase)]
        [(sampleExt.getID paris, paris)] "Paris, France".toList []).locations = 2 := by
  decide

/-- An instance of `construct_user_wins`: Paris in the base mapping and in the user
mapping. -/
theorem construct_user_wins_witness :
    QMap.find (sampleExt.getID paris) [(sampleExt.getID parisBase, parisBase)]
      = some parisBase ∧
    QMap.find (sampleExt.getID paris) [(sampleExt.getID paris, paris)] = some paris ∧
    QMap.find (sampleExt.getID paris)
      (construct sampleExt [(sampleExt.getID parisBase, parisBase)]
        [(sampleExt.getID paris, paris)] "Paris, France".toList []).locations = some paris :=
  ⟨by decide, by decide,
    (construct_user_wins sampleExt [(sampleExt.getID parisBase, parisBase)]
      [(sampleExt.getID paris, paris)] "Paris, France".toList [] (sampleExt.getID paris)
      parisBase paris (by decide) (by decide)).1⟩

/-! ## The time zone sanitizer -/

/-- A key that is found has its item in the map. -/
theorem QMap.mem_of_find {K V : Type} [LinearOrder K] {k : K} {v : V} {m : QMap K V}
    (h : QMap.find k m = some v) : (k, v) ∈ m := by
  induction m with
  | nil => simp [QMap.find] at h
  | cons hd tl ih =>
    obtain ⟨k1, v1⟩ := hd
    rcases lt_trichotomy k1 k with h1 | h1 | h1
    · simp only [QMap.find, h1, if_true] at h
      exact List.mem_cons_of_mem _ (ih h)
    · subst h1
      simp only [QMap.find, lt_irrefl, if_false, Option.some.injEq] at h
      rw [h]; exact List.mem_cons_self _ _
    · simp [QMap.find, h1, not_lt_of_gt h1] at h

/-- The seeded table uses the marker `---` neither as a key nor as a value. -/
theorem translations_no_marker :
    ∀ kv ∈ locationDBToIANAtranslations, kv.1 ≠ "---".toList ∧ kv.2 ≠ "---".toList := by
  decide

/-- In the seeded table every item is the one its key is looked up to: no key is held
twice. -/
theorem translations_find_of_mem :
    ∀ kv ∈ locationDBToIANAtranslations,
      QMap.find kv.1 locationDBToIANAtranslations = some kv.2 := by
  decide

/-- On a table without the marker `---` among its values, the code of
`sanitizeTimezoneStringFromLocationDB` computes `toHostSpellingSpec`. -/
theorem sanitizeFrom_eq_spec_of_no_marker (table : QMap QString QString)
    (hno : ∀ kv ∈ table, kv.2 ≠ "---".toList) (d : QString) :
    sanitizeTimezoneStringFromLocationDB table d = toHostSpellingSpec table d := by
  unfold sanitizeTimezoneStringFromLocationDB toHostSpellingSpec
  by_cases hu : startsWithUTC d = true
  · simp [hu]
  · by_cases he : d = []
    · simp [hu, he]
    · cases hf : QMap.find d table with
      | none => simp [hu, he, QMap.value, hf]
      | some v =>
        have hv : v ≠ ['-', '-', '-'] := hno (d, v) (QMap.mem_of_find hf)
        simp [hu, he, QMap.value, hf, hv]

/-- C12: on the seeded translation table `sanitizeTimezoneStringFromLocationDB` equals the
reference definition `toHostSpellingSpec` for every string: unchanged when it starts with
`UTC`, else `UTC` when empty, else the mapped value when it is a key of the table, else
unchanged. In particular `Europe/Minsk` gives `UTC+03:00`, `Asia/Kolkata` gives
`Asia/Calcutta` and the empty string gives `UTC`. -/
theorem sanitizeTimezoneStringFromLocationDB_eq_spec :
    (∀ d : QString,
      sanitizeTimezoneStringFromLocationDB locationDBToIANAtranslations d =
        toHostSpellingSpec locationDBToIANAtranslations d) ∧
    sanitizeTimezoneStringFromLocationDB locationDBToIANAtranslations "Europe/Minsk".toList =
      "UTC+03:00".toList ∧
    sanitizeTimezoneStringFromLocationDB locationDBToIANAtranslations "Asia/Kolkata".toList =
      "Asia/Calcutta".toList ∧
    sanitizeTimezoneStringFromLocationDB locationDBToIANAtranslations [] = "UTC".toList := by
  refine ⟨fun d => ?_, by decide, by decide, by decide⟩
  exact sanitizeFrom_eq_spec_of_no_marker _ (fun kv hkv => (translations_no_marker kv hkv).2) d

/-- C13: on the seeded translation table `sanitizeTimezoneStringForLocationDB` equals the
reference definition `toDbSpellingSpec` for every string `h`: it returns `h` when `h` starts
with `UTC`; else, when `h` is a value of the table, a key of the table whose value is `h`;
else `h`. In particular `Asia/Calcutta` gives `Asia/Kolkata`. -/
theorem sanitizeTimezoneStringForLocationDB_eq_spec (h : QString) :
    sanitizeTimezoneStringForLocationDB locationDBToIANAtranslations h =
      toDbSpellingSpec locationDBToIANAtranslations h ∧
    (startsWithUTC h = true →
      sanitizeTimezoneStringForLocationDB locationDBToIANAtranslations h = h) ∧
    (startsWithUTC h = false → (∃ k, QMap.find k locationDBToIANAtranslations = some h) →
      QMap.find (sanitizeTimezoneStringForLocationDB locationDBToIANAtranslations h)
        locationDBToIANAtranslations = some h) ∧
    (startsWithUTC h = false → (¬ ∃ k, QMap.find k locationDBToIANAtranslations = some h) →
      sanitizeTimezoneStringForLocationDB locationDBToIANAtranslations h = h) ∧
    sanitizeTimezoneStringForLocationDB locationDBToIANAtranslations "Asia/Calcutta".toList =
      "Asia/Kolkata".toList := by
  have hcode : ∀ kv, locationDBToIANAtranslations.find? (fun kv => decide (kv.2 = h)) = some kv →
      sanitizeTimezoneStringForLocationDB locationDBToIANAtranslations h =
        (if startsWithUTC h = true then h else kv.1) := by
    intro kv hkv
    have hk : kv.1 ≠ ['-', '-', '-'] :=
      (translations_no_marker kv (List.mem_of_find?_eq_some hkv)).1
    by_cases hu : startsWithUTC h = true
    · simp [sanitizeTimezoneStringForLocationDB, hu]
    · simp [sanitizeTimezoneStringForLocationDB, hu, QMap.key, hkv, hk]
  have hnone : locationDBToIANAtranslations.find? (fun kv => decide (kv.2 = h)) = none →
      sanitizeTimezoneStringForLocationDB locationDBToIANAtranslations h = h := by
    intro hn
    by_cases hu : startsWithUTC h = true
    · simp [sanitizeTimezoneStringForLocationDB, hu]
    · simp [sanitizeTimezoneStringForLocationDB, hu, QMap.key, hn]
  refine ⟨?_, ?_, ?_, ?_, by decide⟩
  · cases hf : locationDBToIANAtranslations.find? (fun kv => decide (kv.2 = h)) with
    | none =>
      rw [hnone hf]
      by_cases hu : startsWithUTC h = true <;> simp [toDbSpellingSpec, hu, hf]
    | some kv =>
      rw [hcode kv hf]
      by_cases hu : startsWithUTC h = true <;> simp [toDbSpellingSpec, hu, hf]
  · intro hu
    simp [sanitizeTimezoneStringForLocationDB, hu]
  · intro hu _
    cases hf : locationDBToIANAtranslations.find? (fun kv => decide (kv.2 = h)) with
    | none =>
      rename_i hex
      obtain ⟨k, hk⟩ := hex
      have hmem := QMap.mem_of_find hk
      have := List.find?_eq_none.mp hf (k, h) hmem
      simp at this
    | some kv =>
      have hv : kv.2 = h := by simpa using List.find?_some hf
      rw [hcode kv hf]
      simp only [hu, Bool.false_eq_true, if_false]
      rw [translations_find_of_mem kv (List.mem_of_find?_eq_some hf), hv]
  · intro hu hno
    cases hf : locationDBToIANAtranslations.find? (fun kv => decide (kv.2 = h)) with
    | none => exact hnone hf
    | some kv =>
      have hv : kv.2 = h := by simpa using List.find?_some hf
      exact absurd ⟨kv.1, by
        rw [translations_find_of_mem kv (List.mem_of_find?_eq_some hf), hv]⟩ hno

/-- C14, as stated, fails: on the seeded table `sanitizeTimezoneStringForLocationDB` does
not turn `UTC+03:00` into `Europe/Minsk`; it returns `UTC+03:00` itself. -/
theorem sanitizeTimezoneStringForLocationDB_utc0300 :
    sanitizeTimezoneStringForLocationDB locationDBToIANAtranslations "UTC+03:00".toList ≠
      "Europe/Minsk".toList ∧
    sanitizeTimezoneStringForLocationDB locationDBToIANAtranslations "UTC+03:00".toList =
      "UTC+03:00".toList := by
  decide

/-- C14, as the code has it: a name that starts with `UTC` is returned unchanged by
`sanitizeTimezoneStringForLocationDB`, whatever the table holds; the reverse lookup is not
reached. So `UTC+03:00` stays `UTC+03:00`. -/
theorem sanitizeTimezoneStringForLocationDB_utc_unchanged (table : QMap QString QString)
    (h : QString) (hu : startsWithUTC h = true) :
    sanitizeTimezoneStringForLocationDB table h = h := by
  simp [sanitizeTimezoneStringForLocationDB, hu]

/-- An instance of `sanitizeTimezoneStringForLocationDB_utc_unchanged`: the host spelling
`UTC+03:00` on the seeded table. -/
theorem sanitizeTimezoneStringForLocationDB_utc_unchanged_witness :
    startsWithUTC "UTC+03:00".toList = true ∧
    sanitizeTimezoneStringForLocationDB locationDBToIANAtranslations "UTC+03:00".toList =
      "UTC+03:00".toList :=
  ⟨by decide,
    sanitizeTimezoneStringForLocationDB_utc_unchanged locationDBToIANAtranslations
      "UTC+03:00".toList (by decide)⟩

/-! ## parseAngle -/

section ParseAngle

variable {F : Type} [Zero F] [Add F] [Div F] [NatCast F]

/-- C15: for a string that is not a plain decimal number and that the degrees, minutes and
seconds pattern matches in full, with a degrees group of value `D` and with minutes and
seconds groups of values `M` and `S`, a missing group counting as 0, `parseAngle` reports
success and returns `D + M / 60 + S / 3600`. -/
theorem parseAngle_dms (E : Ext F) (s c1 c2 c3 : QString) (D M S : F)
    (hdec : E.toFloat s = none)
    (hpat : exactMatchDMS E.isDigit s = some (c1, c2, c3))
    (hD : E.toFloat c1 = some D)
    (hM : (if c2.isEmpty then some 0 else E.toFloat c2) = some M)
    (hS : (if c3.isEmpty then some 0 else E.toFloat c3) = some S) :
    parseAngle E s = (D + M / ((60 : Nat) : F) + S / ((3600 : Nat) : F), true) := by
  simp only [parseAngle, hdec, hpat, hD, hM, hS]

/-- C17: a string that is neither a plain decimal number nor a full match of the degrees,
minutes and seconds pattern with numeric groups is rejected: `parseAngle` returns 0 and
reports failure. That covers a string the pattern does not match in full, and a match
whose degrees group, or whose minutes or seconds group when there is one, is not a
number. -/
theorem parseAngle_rejects (E : Ext F) (s : QString)
    (hdec : E.toFloat s = none)
    (hno : exactMatchDMS E.isDigit s = none ∨
      ∃ c1 c2 c3, exactMatchDMS E.isDigit s = some (c1, c2, c3) ∧
        (E.toFloat c1 = none ∨ (c2.isEmpty = false ∧ E.toFloat c2 = none) ∨
          (c3.isEmpty = false ∧ E.toFloat c3 = none))) :
    parseAngle E s = (0, false) := by
  rcases hno with hno | ⟨c1, c2, c3, hpat, hbad⟩
  · simp only [parseAngle, hdec, hno]
  · simp only [parseAngle, hdec, hpat]
    cases h1 : E.toFloat c1 with
    | none => rfl
    | some deg =>
      rcases hbad with hb | ⟨he, hb⟩ | ⟨he, hb⟩
      · rw [h1] at hb; exact absurd hb (by simp)
      · simp only [he, hb, Bool.false_eq_true, if_false]
      · cases h2 : (if c2.isEmpty = true then some 0 else E.toFloat c2) with
        | none => rfl
        | some min => simp only [he, hb, Bool.false_eq_true, if_false]

end ParseAngle

/-- Three instances of `parseAngle_dms`: the string `12°` gives 12, the string `12°30'`
gives 12.5, and the coordinate `+121°33'38.28"` of the comment in the source gives
121 + 33/60 + 38.28/3600. -/
theorem parseAngle_dms_witness :
    parseAngle angleExt "12°".toList = (12, true) ∧
    parseAngle angleExt "12°30'".toList = (25 / 2, true) ∧
    parseAngle angleExt "+121°33'38.28\"".toList =
      (121 + 33 / 60 + (3828 / 100) / 3600, true) := by
  refine ⟨?_, ?_, ?_⟩
  · rw [parseAngle_dms angleExt "12°".toList "12".toList [] [] 12 0 0
      (by decide) (by decide) (by decide) (by decide) (by decide)]
    norm_num
  · rw [parseAngle_dms angleExt "12°30'".toList "12".toList "30".toList [] 12 30 0
      (by decide) (by decide) (by decide) (by decide) (by decide)]
    norm_num
  · rw [parseAngle_dms angleExt "+121°33'38.28\"".toList "+121".toList "33".toList
      "38.28".toList 121 33 (3828 / 100)
      (by decide) (by decide) (by decide) (by decide) (by rfl)]
    norm_num

/-- C16 fails on the code: for the string `-0°30'`, whose degrees term is written with a
minus sign, `parseAngle` reports success and returns the positive angle 0.5; and for
`-12°30'` it returns -11.5, the minutes being added to the negative degrees. -/
theorem parseAngle_minus_sign_lost :
    exactMatchDMS angleExt.isDigit "-0°30'".toList = some ("-0".toList, "30".toList, []) ∧
    parseAngle angleExt "-0°30'".toList = (1 / 2, true) ∧
    (0 : ℚ) < (parseAngle angleExt "-0°30'".toList).1 ∧
    parseAngle angleExt "-12°30'".toList = (-23 / 2, true) := by
  have h0 : parseAngle angleExt "-0°30'".toList = (1 / 2, true) := by
    have h : parseAngle angleExt "-0°30'".toList =
        ((0 : ℚ) + 30 / ((60 : Nat) : ℚ) + 0 / ((3600 : Nat) : ℚ), true) := by rfl
    rw [h]; norm_num
  refine ⟨by decide, h0, ?_, ?_⟩
  · rw [h0]; norm_num
  · have h : parseAngle angleExt "-12°30'".toList =
        ((-12 : ℚ) + 30 / ((60 : Nat) : ℚ) + 0 / ((3600 : Nat) : ℚ), true) := by rfl
    rw [h]; norm_num

/-- Two instances of `parseAngle_rejects`: a valid angle followed by one more character,
which the pattern does not match in full, and `1.2.3°`, whose degrees group is not a
number. -/
theorem parseAngle_rejects_witness :
    parseAngle angleExt "12°30'x".toList = (0, false) ∧
    parseAngle angleExt "1.2.3°".toList = (0, false) :=
  ⟨parseAngle_rejects angleExt "12°30'x".toList (by decide) (Or.inl (by decide)),
    parseAngle_rejects angleExt "1.2.3°".toList (by decide)
      (Or.inr ⟨"1.2.3".toList, [], [], by decide, Or.inl (by decide)⟩)⟩

/-! ## Lemmas on the degrees, minutes and seconds pattern -/

/-- A run `[\d.]+` found at the head of a string: it is not empty, made of digits and dots,
and followed by the rest. -/
theorem digitsDots_sound {isDigit : Char → Bool} {s g r : QString}
    (h : digitsDots isDigit s = some (g, r)) :
    g ≠ [] ∧ (∀ c ∈ g, (isDigit c || c == '.') = true) ∧ s = g ++ r := by
  unfold digitsDots at h
  simp only at h
  split at h
  · exact absurd h (by simp)
  · rename_i hne
    simp only [Option.some.injEq, Prod.mk.injEq] at h
    obtain ⟨hg, hr⟩ := h
    refine ⟨?_, ?_, ?_⟩
    · rw [← hg]; intro e; rw [e] at hne; simp at hne
    · intro c hc
      rw [← hg] at hc
      exact List.mem_takeWhile_imp (p := fun c => isDigit c || c == '.') hc
    · rw [← hg, ← hr, List.takeWhile_append_dropWhile]

/-- A run of digits and dots followed by another character is what `digitsDots` finds. -/
theorem digitsDots_complete {isDigit : Char → Bool} {g : QString} (hg : g ≠ [])
    (hp : ∀ c ∈ g, (isDigit c || c == '.') = true) (r : QString)
    (hr : ∀ c ∈ r.head?, (isDigit c || c == '.') = false) :
    digitsDots isDigit (g ++ r) = some (g, r) := by
  have htw : ∀ g : QString, (∀ c ∈ g, (isDigit c || c == '.') = true) →
      (g ++ r).takeWhile (fun c => isDigit c || c == '.') = g ∧
      (g ++ r).dropWhile (fun c => isDigit c || c == '.') = r := by
    intro g hp
    induction g with
    | nil =>
      cases r with
      | nil => simp
      | cons x t =>
        have := hr x (by simp)
        simp [List.takeWhile_cons, List.dropWhile_cons, this]
    | cons x t ih =>
      have hx := hp x (List.mem_cons_self _ _)
      have ht := ih (fun c hc => hp c (List.mem_cons_of_mem _ hc))
      simp [List.takeWhile_cons, List.dropWhile_cons, hx, ht.1, ht.2]
  obtain ⟨h1, h2⟩ := htw g hp
  unfold digitsDots
  simp only [h1, h2]
  cases g with
  | nil => exact absurd rfl hg
  | cons x t => simp

/-- What an optional group takes from the head of a string: its capture is made of digits
and dots, and the string is the text of the group followed by the rest. -/
theorem optGroup_sound {isDigit : Char → Bool} {x : Char} {s g r : QString}
    (h : optGroup isDigit x s = (g, r)) :
    (∀ c ∈ g, (isDigit c || c == '.') = true) ∧ s = closedGroup g x ++ r := by
  unfold optGroup at h
  split at h
  · rename_i g1 c1 rest hd
    obtain ⟨hne, hp, hs⟩ := digitsDots_sound hd
    split at h
    · rename_i hc
      simp only [Prod.mk.injEq] at h
      obtain ⟨hg, hr⟩ := h
      subst hg hr hc
      exact ⟨hp, by simp [closedGroup, hne, hs]⟩
    · simp only [Prod.mk.injEq] at h
      obtain ⟨hg, hr⟩ := h
      subst hg hr
      exact ⟨by simp, by simp [closedGroup]⟩
  · simp only [Prod.mk.injEq] at h
    obtain ⟨hg, hr⟩ := h
    subst hg hr
    exact ⟨by simp, by simp [closedGroup]⟩

/-- The capture groups of the degrees, minutes and seconds pattern, when it matches: the
degrees group is an optional sign and a run of digits and dots, the other two groups are
runs of digits and dots, and the string is the degrees group, the degree sign, and the
minutes and seconds groups, each closed by its mark when it is there. -/
theorem exactMatchDMS_sound {isDigit : Char → Bool} {s c1 c2 c3 : QString}
    (h : exactMatchDMS isDigit s = some (c1, c2, c3)) :
    (∃ sign d, (sign = [] ∨ sign = ['+'] ∨ sign = ['-']) ∧ c1 = sign ++ d ∧ d ≠ [] ∧
      ∀ c ∈ d, (isDigit c || c == '.') = true) ∧
    (∀ c ∈ c2, (isDigit c || c == '.') = true) ∧
    (∀ c ∈ c3, (isDigit c || c == '.') = true) ∧
    s = c1 ++ '°' :: (closedGroup c2 '\'' ++ closedGroup c3 '"') := by
  have key : ∀ (sign d r1 : QString),
      ((sign = [] ∨ sign = ['+'] ∨ sign = ['-']) ∧ s = sign ++ s.drop sign.length) →
      digitsDots isDigit (s.drop sign.length) = some (d, '°' :: r1) →
      (optGroup isDigit '"' (optGroup isDigit '\'' r1).2).2.isEmpty = true →
      some (sign ++ d, (optGroup isDigit '\'' r1).1,
        (optGroup isDigit '"' (optGroup isDigit '\'' r1).2).1) = some (c1, c2, c3) →
      (∃ sign d, (sign = [] ∨ sign = ['+'] ∨ sign = ['-']) ∧ c1 = sign ++ d ∧ d ≠ [] ∧
        ∀ c ∈ d, (isDigit c || c == '.') = true) ∧
      (∀ c ∈ c2, (isDigit c || c == '.') = true) ∧
      (∀ c ∈ c3, (isDigit c || c == '.') = true) ∧
      s = c1 ++ '°' :: (closedGroup c2 '\'' ++ closedGroup c3 '"') := by
    intro sign d r1 hsign hd hemp hm
    obtain ⟨hne, hp, ht⟩ := digitsDots_sound hd
    simp only [Option.some.injEq, Prod.mk.injEq] at hm
    obtain ⟨h1, h2, h3⟩ := hm
    obtain ⟨hp2, hs2⟩ := optGroup_sound (x := '\'') (s := r1)
      (g := (optGroup isDigit '\'' r1).1) (r := (optGroup isDigit '\'' r1).2) rfl
    obtain ⟨hp3, hs3⟩ := optGroup_sound (x := '"') (s := (optGroup isDigit '\'' r1).2)
      (g := (optGroup isDigit '"' (optGroup isDigit '\'' r1).2).1)
      (r := (optGroup isDigit '"' (optGroup isDigit '\'' r1).2).2) rfl
    have hnil : (optGroup isDigit '"' (optGroup isDigit '\'' r1).2).2 = [] := by
      simpa using hemp
    rw [hnil, List.append_nil] at hs3
    rw [h2] at hp2 hs2
    rw [h3] at hp3 hs3
    refine ⟨⟨sign, d, hsign.1, h1.symm, hne, hp⟩, hp2, hp3, ?_⟩
    rw [← h1]
    conv_lhs => rw [hsign.2, ht, hs2, hs3]
    simp
  unfold exactMatchDMS at h
  simp only at h
  split at h
  · rename_i d r1 hd
    split at h
    · rename_i hemp
      refine key _ d r1 ?_ hd hemp h
      split <;> simp
    · exact absurd h (by simp)
  · exact absurd h (by simp)

/-- The text of an optional group, followed by text that starts with no digit or dot, is
taken by `optGroup` when the group has a capture made of digits and dots, provided the
closing character is itself no digit or dot. -/
theorem optGroup_complete {isDigit : Char → Bool} {x : Char} {g : QString}
    (hx : (isDigit x || x == '.') = false)
    (hp : ∀ c ∈ g, (isDigit c || c == '.') = true) (r : QString)
    (hr : g = [] → ∀ y t, r = y :: t →
      (isDigit y || y == '.') = false ∨ (∃ g2 t2, digitsDots isDigit r = some (g2, t2) ∧
        t2.head? ≠ some x)) :
    optGroup isDigit x (closedGroup g x ++ r) = (g, r) := by
  by_cases hg : g = []
  · subst hg
    simp only [closedGroup, if_true, List.nil_append]
    unfold optGroup
    cases r with
    | nil => simp [digitsDots]
    | cons y t =>
      rcases hr rfl y t rfl with hy | ⟨g2, t2, hd, hh⟩
      · have : digitsDots isDigit (y :: t) = none := by
          simp [digitsDots, List.takeWhile_cons, hy]
        simp [this]
      · rw [hd]
        cases t2 with
        | nil => rfl
        | cons z t3 =>
          have hz : z ≠ x := fun e => hh (by simp [e])
          simp [hz]
  · have hd : digitsDots isDigit (g ++ x :: r) = some (g, x :: r) :=
      digitsDots_complete hg hp (x :: r) (by simpa using hx)
    simp [closedGroup, hg, optGroup, hd]

/-- Every string of the degrees, minutes and seconds shape is matched, with its three
groups as captures, provided the sign characters, the degree sign and the two closing
marks are not among the digits. -/
theorem exactMatchDMS_complete {isDigit : Char → Bool} (sign d m sec : QString)
    (hplus : isDigit '+' = false) (hminus : isDigit '-' = false) (hdeg : isDigit '°' = false)
    (hmin : isDigit '\'' = false) (hsec : isDigit '"' = false)
    (hsign : sign = [] ∨ sign = ['+'] ∨ sign = ['-'])
    (hd : d ≠ []) (hpd : ∀ c ∈ d, (isDigit c || c == '.') = true)
    (hpm : ∀ c ∈ m, (isDigit c || c == '.') = true)
    (hps : ∀ c ∈ sec, (isDigit c || c == '.') = true) :
    exactMatchDMS isDigit (sign ++ d ++ '°' :: (closedGroup m '\'' ++ closedGroup sec '"')) =
      some (sign ++ d, m, sec) := by
  have hd1 : digitsDots isDigit (d ++ '°' :: (closedGroup m '\'' ++ closedGroup sec '"')) =
      some (d, '°' :: (closedGroup m '\'' ++ closedGroup sec '"')) :=
    digitsDots_complete hd hpd _ (by simp [hdeg])
  have hg2 : optGroup isDigit '\'' (closedGroup m '\'' ++ closedGroup sec '"') =
      (m, closedGroup sec '"') := by
    apply optGroup_complete (by simp [hmin]) hpm
    intro _ y t hyt
    by_cases hs : sec = []
    · simp [closedGroup, hs] at hyt
    · refine Or.inr ⟨sec, ['"'], ?_, by simp⟩
      have := @digitsDots_complete isDigit sec hs hps ['"'] (by simp [hsec])
      simpa [closedGroup, hs] using this
  have hg3 : optGroup isDigit '"' (closedGroup sec '"') = (sec, []) := by
    have := @optGroup_complete isDigit '"' sec (by simp [hsec]) hps []
      (by intro _ y t h; exact absurd h (by simp))
    simpa using this
  obtain ⟨x, t, hxt⟩ := List.exists_cons_of_ne_nil hd
  have hx := hpd x (by rw [hxt]; exact List.mem_cons_self _ _)
  have hxp : x ≠ '+' := by
    intro e; rw [e, hplus] at hx; simp at hx
  have hxm : x ≠ '-' := by
    intro e; rw [e, hminus] at hx; simp at hx
  rcases hsign with hs | hs | hs
  · subst hs
    simp only [List.nil_append]
    unfold exactMatchDMS
    rw [hxt] at hd1 ⊢
    simp only [List.cons_append] at hd1
    simp [hxp, hxm, hd1, hg2, hg3]
  · subst hs
    unfold exactMatchDMS
    simp [hd1, hg2, hg3]
  · subst hs
    unfold exactMatchDMS
    simp [hd1, hg2, hg3]

/-! ## The text catalogue -/

section Loader

variable {F : Type}

/-- The loop of `loadCities` passes over the lines that `skippedLine` marks. -/
theorem foldl_loadCitiesLine_filter (E : Ext F) (isUser : Bool) (lines : List QString)
    (acc : QMap QString (StelLocation F)) :
    lines.foldl (loadCitiesLine E isUser) acc =
      (lines.filter (fun l => !skippedLine l)).foldl (loadCitiesLine E isUser) acc := by
  induction lines generalizing acc with
  | nil => rfl
  | cons l tl ih =>
    cases hs : skippedLine l
    · simp only [List.foldl_cons, List.filter_cons, hs, Bool.not_false, if_true]
      exact ih _
    · simp only [List.foldl_cons, List.filter_cons, hs, Bool.not_true, Bool.false_eq_true,
        if_false]
      rw [← ih]
      simp [loadCitiesLine, hs]

/-- The body of the loop on a data line whose identifier is not yet a key: the record is
inserted as it is. -/
theorem loadCitiesLine_fresh (E : Ext F) (isUser : Bool)
    (locations : QMap QString (StelLocation F)) (l : QString)
    (hdata : skippedLine l = false)
    (hfind : QMap.find (E.getID (lineRecord E isUser l)) locations = none) :
    loadCitiesLine E isUser locations l =
      QMap.insert (E.getID (lineRecord E isUser l)) (lineRecord E isUser l) locations := by
  simp only [lineRecord] at hfind
  simp only [loadCitiesLine, hdata, Bool.false_eq_true, if_false, hfind, lineRecord]

/-- The body of the loop on a data line whose identifier is already a key, when the stored
record and the new one have a state: the stored record is removed, and both records are
inserted with their state in their name, each under the identifier of the new name. -/
theorem loadCitiesLine_collide (E : Ext F) (isUser : Bool)
    (locations : QMap QString (StelLocation F)) (l : QString) (loc2 : StelLocation F)
    (hdata : skippedLine l = false)
    (hfind : QMap.find (E.getID (lineRecord E isUser l)) locations = some loc2)
    (hstate2 : loc2.state ≠ []) (hstate : (lineRecord E isUser l).state ≠ []) :
    loadCitiesLine E isUser locations l =
      QMap.insert (E.getID (withStateInName (lineRecord E isUser l)))
        (withStateInName (lineRecord E isUser l))
        (QMap.insert (E.getID (withStateInName loc2)) (withStateInName loc2)
          (QMap.remove (E.getID (lineRecord E isUser l)) locations)) := by
  have he2 : loc2.state.isEmpty = false := by
    cases h : loc2.state with
    | nil => exact absurd h hstate2
    | cons _ _ => rfl
  have he : (E.createFromLine l).state.isEmpty = false := by
    simp only [lineRecord] at hstate
    cases h : (E.createFromLine l).state with
    | nil => exact absurd h hstate
    | cons _ _ => rfl
  simp only [lineRecord] at hfind
  simp only [loadCitiesLine, hdata, Bool.false_eq_true, if_false, hfind, lineRecord,
    withStateInName, he, he2, Bool.not_false, if_true]

/-- C11: for a text catalogue with exactly two data lines whose records have the same
identifier and non-empty states, `loadCities` returns exactly two entries: the two records,
each with ` (state)` appended to its name, each under the identifier of its new name, and
the identifier the two lines shared is not a key. That the two renamed records get
identifiers different from each other and from the shared one is what is assumed of
`StelLocation::getID`; for records of equal name and country it needs the states to
differ. -/
theorem loadCities_two_colliding_lines (E : Ext F) (isUser : Bool) (lines : List QString)
    (l1 l2 : QString)
    (hdata : lines.filter (fun l => !skippedLine l) = [l1, l2])
    (hid : E.getID (lineRecord E isUser l1) = E.getID (lineRecord E isUser l2))
    (hstate1 : (lineRecord E isUser l1).state ≠ [])
    (hstate2 : (lineRecord E isUser l2).state ≠ [])
    (hsep : E.getID (withStateInName (lineRecord E isUser l1)) ≠
      E.getID (withStateInName (lineRecord E isUser l2)))
    (hnew1 : E.getID (withStateInName (lineRecord E isUser l1)) ≠
      E.getID (lineRecord E isUser l1))
    (hnew2 : E.getID (withStateInName (lineRecord E isUser l2)) ≠
      E.getID (lineRecord E isUser l1)) :
    (loadCities E (some lines) isUser).length = 2 ∧
    List.Perm (loadCities E (some lines) isUser)
      [(E.getID (withStateInName (lineRecord E isUser l1)),
          withStateInName (lineRecord E isUser l1)),
        (E.getID (withStateInName (lineRecord E isUser l2)),
          withStateInName (lineRecord E isUser l2))] ∧
    QMap.find (E.getID (withStateInName (lineRecord E isUser l1)))
      (loadCities E (some lines) isUser) = some (withStateInName (lineRecord E isUser l1)) ∧
    QMap.find (E.getID (withStateInName (lineRecord E isUser l2)))
      (loadCities E (some lines) isUser) = some (withStateInName (lineRecord E isUser l2)) ∧
    QMap.find (E.getID (lineRecord E isUser l1)) (loadCities E (some lines) isUser) = none ∧
    (withStateInName (lineRecord E isUser l1)).name =
      (lineRecord E isUser l1).name ++
        (" (".toList ++ (lineRecord E isUser l1).state ++ ")".toList) ∧
    (withStateInName (lineRecord E isUser l2)).name =
      (lineRecord E isUser l2).name ++
        (" (".toList ++ (lineRecord E isUser l2).state ++ ")".toList) := by
  have hne1 : skippedLine l1 = false := by
    have : l1 ∈ lines.filter (fun l => !skippedLine l) := by rw [hdata]; simp
    simpa using (List.mem_filter.mp this).2
  have hne2 : skippedLine l2 = false := by
    have : l2 ∈ lines.filter (fun l => !skippedLine l) := by rw [hdata]; simp
    simpa using (List.mem_filter.mp this).2
  have hstep1 : loadCitiesLine E isUser [] l1 =
      [(E.getID (lineRecord E isUser l1), lineRecord E isUser l1)] :=
    loadCitiesLine_fresh E isUser [] l1 hne1 rfl
  have hstep2 : loadCitiesLine E isUser
      [(E.getID (lineRecord E isUser l1), lineRecord E isUser l1)] l2 =
      QMap.insert (E.getID (withStateInName (lineRecord E isUser l2)))
        (withStateInName (lineRecord E isUser l2))
        [(E.getID (withStateInName (lineRecord E isUser l1)),
          withStateInName (lineRecord E isUser l1))] := by
    have hfind : QMap.find (E.getID (lineRecord E isUser l2))
        [(E.getID (lineRecord E isUser l1), lineRecord E isUser l1)] =
        some (lineRecord E isUser l1) := by
      rw [← hid]; simp [QMap.find]
    have hrem : QMap.remove (E.getID (lineRecord E isUser l2))
        [(E.getID (lineRecord E isUser l1), lineRecord E isUser l1)] = [] := by
      rw [← hid]; simp [QMap.remove]
    rw [loadCitiesLine_collide E isUser _ l2 _ hne2 hfind hstate1 hstate2, hrem]
    rfl
  have hres : loadCities E (some lines) isUser =
      QMap.insert (E.getID (withStateInName (lineRecord E isUser l2)))
        (withStateInName (lineRecord E isUser l2))
        [(E.getID (withStateInName (lineRecord E isUser l1)),
          withStateInName (lineRecord E isUser l1))] := by
    show lines.foldl (loadCitiesLine E isUser) [] = _
    rw [foldl_loadCitiesLine_filter, hdata]
    simp only [List.foldl_cons, List.foldl_nil, hstep1, hstep2]
  have hnone : QMap.find (E.getID (withStateInName (lineRecord E isUser l2)))
      [(E.getID (withStateInName (lineRecord E isUser l1)),
        withStateInName (lineRecord E isUser l1))] = none := by
    rcases lt_trichotomy (E.getID (withStateInName (lineRecord E isUser l1)))
      (E.getID (withStateInName (lineRecord E isUser l2))) with h | h | h
    · simp [QMap.find, h]
    · exact absurd h hsep
    · simp [QMap.find, h, not_lt_of_gt h]
  have hperm := QMap.insert_perm hnone (withStateInName (lineRecord E isUser l2))
  rw [hres]
  refine ⟨by simpa using hperm.length_eq, ?_, ?_, QMap.find_insert_self _ _ _, ?_, rfl, rfl⟩
  · exact hperm.trans (List.Perm.swap _ _ _)
  · rw [QMap.find_insert_ne hsep]
    simp [QMap.find]
  · rw [QMap.find_insert_ne (Ne.symm hnew2)]
    rcases lt_trichotomy (E.getID (withStateInName (lineRecord E isUser l1)))
      (E.getID (lineRecord E isUser l1)) with h | h | h
    · simp [QMap.find, h]
    · exact absurd h hnew1
    · simp [QMap.find, h, not_lt_of_gt h]

end Loader

/-- An instance of `loadCities_two_colliding_lines`: a catalogue with a comment, an empty
line and two lines for Springfield, in Illinois and in Massachusetts. -/
theorem loadCities_two_colliding_lines_witness :
    (loadCities lineExt (some ["# cities".toList, springfieldIL, [], springfieldMA]) true).length
      = 2 ∧
    QMap.find "Springfield (IL), US".toList
      (loadCities lineExt (some ["# cities".toList, springfieldIL, [], springfieldMA]) true) =
      some (withStateInName (lineRecord lineExt true springfieldIL)) ∧
    QMap.find "Springfield, US".toList
      (loadCities lineExt (some ["# cities".toList, springfieldIL, [], springfieldMA]) true) =
      none :=
  have h := loadCities_two_colliding_lines lineExt true
    ["# cities".toList, springfieldIL, [], springfieldMA] springfieldIL springfieldMA
    (by decide) (by decide) (by decide) (by decide) (by decide) (by decide) (by decide)
  ⟨h.1, h.2.2.1, h.2.2.2.2.1⟩

/-! ## Searching the catalogue -/

/-- An insertion under a key above every key of the map puts the item last. -/
theorem QMap.insert_of_lt {K V : Type} [LinearOrder K] {k : K} (v : V) {m : QMap K V}
    (h : ∀ kv ∈ m, kv.1 < k) : QMap.insert k v m = m ++ [(k, v)] := by
  induction m with
  | nil => rfl
  | cons hd tl ih =>
    obtain ⟨k1, v1⟩ := hd
    have h1 : k1 < k := h (k1, v1) (List.mem_cons_self _ _)
    simp only [QMap.insert, h1, if_true, List.cons_append]
    rw [ih (fun kv hkv => h kv (List.mem_cons_of_mem _ hkv))]

/-- Inserting the items of a map without repeated key that pass a test, in the order of
the map, into a map of smaller keys: the items that pass are appended. -/
theorem QMap.foldl_insert_if {K V : Type} [LinearOrder K] (p : K × V → Prop)
    [DecidablePred p] (m : QMap K V) (hm : QMap.StrictSorted m) (acc : QMap K V)
    (hacc : ∀ a ∈ acc, ∀ b ∈ m, a.1 < b.1) :
    m.foldl (fun results it => if p it then QMap.insert it.1 it.2 results else results) acc =
      acc ++ m.filter (fun it => decide (p it)) := by
  induction m generalizing acc with
  | nil => simp
  | cons hd tl ih =>
    have htl : QMap.StrictSorted tl := (List.pairwise_cons.mp hm).2
    have hhd : ∀ b ∈ tl, hd.1 < b.1 := (List.pairwise_cons.mp hm).1
    by_cases hp : p hd
    · have hins : QMap.insert hd.1 hd.2 acc = acc ++ [hd] :=
        QMap.insert_of_lt hd.2 (fun a ha => hacc a ha hd (List.mem_cons_self _ _))
      simp only [List.foldl_cons, hp, if_true, List.filter_cons, decide_True, hins]
      rw [ih htl]
      · simp
      · intro a ha b hb
        rcases List.mem_append.mp ha with ha | ha
        · exact hacc a ha b (List.mem_cons_of_mem _ hb)
        · rw [List.mem_singleton.mp ha]; exact hhd b hb
    · simp only [List.foldl_cons, hp, if_false, List.filter_cons, decide_False,
        Bool.false_eq_true]
      exact ih htl acc (fun a ha b hb => hacc a ha b (List.mem_cons_of_mem _ hb))

/-! ## Searching a catalogue that holds an identifier several times -/

/-- An item of the map after `insert` is the inserted value under the key, or an item that
was there. -/
theorem QMap.mem_insert {K V : Type} [LinearOrder K] {k : K} {v : V} {m : QMap K V}
    {kv : K × V} (h : kv ∈ QMap.insert k v m) : (kv.1 = k ∧ kv.2 = v) ∨ kv ∈ m := by
  induction m with
  | nil =>
    simp only [QMap.insert, List.mem_singleton] at h
    exact Or.inl (by rw [h]; exact ⟨rfl, rfl⟩)
  | cons hd tl ih =>
    obtain ⟨k1, v1⟩ := hd
    rcases lt_trichotomy k1 k with h1 | h1 | h1
    · simp only [QMap.insert, h1, if_true, List.mem_cons] at h
      rcases h with h | h
      · exact Or.inr (by rw [h]; exact List.mem_cons_self _ _)
      · rcases ih h with h | h
        · exact Or.inl h
        · exact Or.inr (List.mem_cons_of_mem _ h)
    · subst h1
      simp only [QMap.insert, lt_irrefl, if_false, List.mem_cons] at h
      rcases h with h | h
      · exact Or.inl (by rw [h]; exact ⟨rfl, rfl⟩)
      · exact Or.inr (List.mem_cons_of_mem _ h)
    · simp only [QMap.insert, not_lt_of_gt h1, h1, if_true, if_false, List.mem_cons] at h
      rcases h with h | h | h
      · exact Or.inl (by rw [h]; exact ⟨rfl, rfl⟩)
      · exact Or.inr (by rw [h]; exact List.mem_cons_self _ _)
      · exact Or.inr (List.mem_cons_of_mem _ h)

/-- The operation `insert` keeps a map without repeated key so. -/
theorem QMap.insert_strictSorted {K V : Type} [LinearOrder K] (k : K) (v : V) {m : QMap K V}
    (hm : QMap.StrictSorted m) : QMap.StrictSorted (QMap.insert k v m) := by
  induction m with
  | nil => simp [QMap.insert, QMap.StrictSorted]
  | cons hd tl ih =>
    obtain ⟨k1, v1⟩ := hd
    have htl : QMap.StrictSorted tl := (List.pairwise_cons.mp hm).2
    have hall : ∀ kv ∈ tl, k1 < kv.1 := (List.pairwise_cons.mp hm).1
    rcases lt_trichotomy k1 k with h1 | h1 | h1
    · simp only [QMap.insert, h1, if_true]
      refine List.pairwise_cons.mpr ⟨?_, ih htl⟩
      intro kv hkv
      rcases QMap.key_mem_insert hkv with h | ⟨x, hx, hk⟩
      · rw [h]; exact h1
      · rw [← hk]; exact hall x hx
    · subst h1
      simp only [QMap.insert, lt_irrefl, if_false]
      exact List.pairwise_cons.mpr ⟨hall, htl⟩
    · simp only [QMap.insert, not_lt_of_gt h1, h1, if_true, if_false]
      refine List.pairwise_cons.mpr ⟨?_, hm⟩
      intro kv hkv
      rcases List.mem_cons.mp hkv with h | h
      · rw [h]; exact h1
      · exact lt_trans h1 (hall kv h)

/-- In a map without repeated key, an item is what the lookup of its key gives. -/
theorem QMap.find_of_mem {K V : Type} [LinearOrder K] {k : K} {v : V} {m : QMap K V}
    (hm : QMap.StrictSorted m) (h : (k, v) ∈ m) : QMap.find k m = some v := by
  induction m with
  | nil => exact absurd h (List.not_mem_nil _)
  | cons hd tl ih =>
    obtain ⟨k1, v1⟩ := hd
    have htl : QMap.StrictSorted tl := (List.pairwise_cons.mp hm).2
    have hall : ∀ kv ∈ tl, k1 < kv.1 := (List.pairwise_cons.mp hm).1
    rcases List.mem_cons.mp h with h | h
    · simp only [Prod.mk.injEq] at h
      rw [h.1, h.2]
      simp [QMap.find]
    · have h1 : k1 < k := hall (k, v) h
      simp only [QMap.find, h1, if_true]
      exact ih htl h

/-- A loop that inserts the items that pass a test is the loop of insertions over the
items that pass. -/
theorem QMap.foldl_insert_if_eq {K V : Type} [LinearOrder K] (p : K × V → Prop)
    [DecidablePred p] (m : QMap K V) (acc : QMap K V) :
    m.foldl (fun results it => if p it then QMap.insert it.1 it.2 results else results) acc =
      (m.filter (fun it => decide (p it))).foldl
        (fun results it => QMap.insert it.1 it.2 results) acc := by
  induction m generalizing acc with
  | nil => rfl
  | cons hd tl ih =>
    by_cases hp : p hd
    · simp only [List.foldl_cons, hp, if_true, List.filter_cons, decide_True]
      exact ih _
    · simp only [List.foldl_cons, hp, if_false, List.filter_cons, decide_False,
        Bool.false_eq_true]
      exact ih _

/-- A loop of insertions into a map without repeated key leaves such a map. -/
theorem QMap.foldl_insert_strictSorted {K V : Type} [LinearOrder K] (xs : List (K × V))
    (acc : QMap K V) (hacc : QMap.StrictSorted acc) :
    QMap.StrictSorted (xs.foldl (fun results it => QMap.insert it.1 it.2 results) acc) := by
  induction xs generalizing acc with
  | nil => exact hacc
  | cons hd tl ih => exact ih _ (QMap.insert_strictSorted hd.1 hd.2 hacc)

/-- The items after a loop of insertions: an inserted item, or an item that was there. -/
theorem QMap.mem_foldl_insert {K V : Type} [LinearOrder K] (xs : List (K × V))
    (acc : QMap K V) {kv : K × V}
    (h : kv ∈ xs.foldl (fun results it => QMap.insert it.1 it.2 results) acc) :
    kv ∈ xs ∨ kv ∈ acc := by
  induction xs generalizing acc with
  | nil => exact Or.inr h
  | cons hd tl ih =>
    rcases ih _ h with h1 | h1
    · exact Or.inl (List.mem_cons_of_mem _ h1)
    · rcases QMap.mem_insert h1 with h2 | h2
      · exact Or.inl (by rw [Prod.ext h2.1 h2.2]; exact List.mem_cons_self _ _)
      · exact Or.inr h2

/-- An item is in the map built by a loop of insertions, from the empty map, exactly when
it is the last of the inserted items under its key. -/
theorem QMap.mem_foldl_insert_iff {K V : Type} [LinearOrder K] (xs : List (K × V))
    (k : K) (v : V) (p : K × V → Bool) (hp : ∀ it, p it = true ↔ it.1 = k) :
    (k, v) ∈ xs.foldl (fun results it => QMap.insert it.1 it.2 results) [] ↔
      (xs.filter p).getLast? = some (k, v) := by
  have hfind := QMap.find_foldl_insert (fun it : K × V => it.1) (fun it => it.2) k p hp xs []
  have hsorted := QMap.foldl_insert_strictSorted xs ([] : QMap K V) List.Pairwise.nil
  constructor
  · intro h
    have h1 := QMap.find_of_mem hsorted h
    rw [hfind] at h1
    cases hl : (xs.filter p).getLast? with
    | none => simp [hl, QMap.find] at h1
    | some it =>
      have hk : it.1 = k :=
        (hp it).mp (List.mem_filter.mp (List.mem_of_getLast?_eq_some hl)).2
      simp only [hl, Option.map_some', Option.or_some, Option.some.injEq] at h1
      rw [← hk, ← h1]
  · intro h
    apply QMap.mem_of_find
    rw [hfind, h]
    rfl

section Nearby

variable {F : Type} [LE F] [DecidableRel (fun a b : F => a ≤ b)]

/-- The search as a loop of insertions over the entries that pass the test. -/
theorem pickLocationsNearby_eq_foldl (distanceDegrees : F → F → F → F → F)
    (w : StelLocationMgr F) (planetName : QString) (longitude latitude radiusDegrees : F) :
    pickLocationsNearby distanceDegrees w planetName longitude latitude radiusDegrees =
      (w.locations.filter (fun iter => decide (iter.2.planetName = planetName ∧
        distanceDegrees longitude latitude iter.2.longitude iter.2.latitude ≤
          radiusDegrees))).foldl (fun results it => QMap.insert it.1 it.2 results) [] := by
  have h := QMap.foldl_insert_if_eq
    (fun iter : QString × StelLocation F => iter.2.planetName = planetName ∧
      distanceDegrees longitude latitude iter.2.longitude iter.2.latitude ≤ radiusDegrees)
    w.locations []
  simpa [pickLocationsNearby] using h

/-- C18, as the code has it: every entry `pickLocationsNearby` returns is an entry of the
mapping, key and record unchanged, that is on the given planet and within `radiusDegrees`
of the query point; the result holds no identifier twice; an entry is returned exactly when
it is the last entry of the mapping under its identifier that passes this test; and on a
mapping that holds no identifier twice the result is exactly the entries that pass the
test, in the order of the mapping. The mapping itself is only read. -/
theorem pickLocationsNearby_last_passing (distanceDegrees : F → F → F → F → F)
    (w : StelLocationMgr F) (planetName : QString) (longitude latitude radiusDegrees : F) :
    (∀ kv ∈ pickLocationsNearby distanceDegrees w planetName longitude latitude radiusDegrees,
      kv ∈ w.locations ∧ kv.2.planetName = planetName ∧
        distanceDegrees longitude latitude kv.2.longitude kv.2.latitude ≤ radiusDegrees) ∧
    QMap.StrictSorted
      (pickLocationsNearby distanceDegrees w planetName longitude latitude radiusDegrees) ∧
    (∀ (k : QString) (v : StelLocation F),
      (k, v) ∈ pickLocationsNearby distanceDegrees w planetName longitude latitude
          radiusDegrees ↔
        ((w.locations.filter (fun iter => decide (iter.2.planetName = planetName ∧
          distanceDegrees longitude latitude iter.2.longitude iter.2.latitude ≤
            radiusDegrees))).filter (fun iter => decide (iter.1 = k))).getLast? =
          some (k, v)) ∧
    (QMap.StrictSorted w.locations →
      pickLocationsNearby distanceDegrees w planetName longitude latitude radiusDegrees =
        w.locations.filter (fun iter => decide (iter.2.planetName = planetName ∧
          distanceDegrees longitude latitude iter.2.longitude iter.2.latitude ≤
            radiusDegrees))) := by
  refine ⟨?_, ?_, ?_, ?_⟩
  · intro kv hkv
    rw [pickLocationsNearby_eq_foldl] at hkv
    rcases QMap.mem_foldl_insert _ _ hkv with h | h
    · have h2 := List.mem_filter.mp h
      exact ⟨h2.1, of_decide_eq_true h2.2⟩
    · exact absurd h (List.not_mem_nil _)
  · rw [pickLocationsNearby_eq_foldl]
    exact QMap.foldl_insert_strictSorted _ _ List.Pairwise.nil
  · intro k v
    rw [pickLocationsNearby_eq_foldl]
    exact QMap.mem_foldl_insert_iff _ k v _ (fun it => by simp)
  · intro hkeys
    have h := QMap.foldl_insert_if
      (fun iter : QString × StelLocation F => iter.2.planetName = planetName ∧
        distanceDegrees longitude latitude iter.2.longitude iter.2.latitude ≤ radiusDegrees)
      w.locations hkeys [] (fun a ha => absurd ha (List.not_mem_nil a))
    simpa [pickLocationsNearby] using h

/-- C19, as the code has it: take a record of the mapping on the queried planet whose
coordinates are the query point, at distance 0 from it. For every `radiusDegrees` that is
not below 0 it is in the result of `pickLocationsNearby` when no later entry of the
mapping under the same identifier passes the test of the search, and so whenever the
mapping holds no identifier twice; for every `radiusDegrees` below 0 it is not in the
result, whatever the mapping. -/
theorem pickLocationsNearby_same_point [Zero F] (distanceDegrees : F → F → F → F → F)
    (w : StelLocationMgr F) (planetName : QString) (longitude latitude radiusDegrees : F)
    (k : QString) (r : StelLocation F) (before after : QMap QString (StelLocation F))
    (hmem : w.locations = before ++ (k, r) :: after)
    (hplanet : r.planetName = planetName)
    (hlong : r.longitude = longitude) (hlat : r.latitude = latitude)
    (hzero : distanceDegrees longitude latitude longitude latitude = 0) :
    ((0 : F) ≤ radiusDegrees →
      (∀ kv ∈ after, kv.1 = k → ¬ (kv.2.planetName = planetName ∧
        distanceDegrees longitude latitude kv.2.longitude kv.2.latitude ≤ radiusDegrees)) →
      (k, r) ∈ pickLocationsNearby distanceDegrees w planetName longitude latitude
        radiusDegrees) ∧
    ((0 : F) ≤ radiusDegrees → QMap.StrictSorted w.locations →
      (k, r) ∈ pickLocationsNearby distanceDegrees w planetName longitude latitude
        radiusDegrees) ∧
    (¬ (0 : F) ≤ radiusDegrees →
      (k, r) ∉ pickLocationsNearby distanceDegrees w planetName longitude latitude
        radiusDegrees) := by
  have hlast : (0 : F) ≤ radiusDegrees →
      (∀ kv ∈ after, kv.1 = k → ¬ (kv.2.planetName = planetName ∧
        distanceDegrees longitude latitude kv.2.longitude kv.2.latitude ≤ radiusDegrees)) →
      (k, r) ∈ pickLocationsNearby distanceDegrees w planetName longitude latitude
        radiusDegrees := by
    intro hradius hlater
    rw [pickLocationsNearby_eq_foldl]
    refine (QMap.mem_foldl_insert_iff _ k r (fun iter => decide (iter.1 = k))
      (fun it => by simp)).mpr ?_
    have hd : distanceDegrees longitude latitude r.longitude r.latitude ≤ radiusDegrees := by
      rw [hlong, hlat, hzero]; exact hradius
    have hafter : (after.filter (fun iter => decide (iter.2.planetName = planetName ∧
        distanceDegrees longitude latitude iter.2.longitude iter.2.latitude ≤
          radiusDegrees))).filter (fun iter => decide (iter.1 = k)) = [] := by
      rw [List.filter_eq_nil_iff]
      intro kv hkv hk
      have h2 := List.mem_filter.mp hkv
      exact hlater kv h2.1 (of_decide_eq_true hk) (of_decide_eq_true h2.2)
    rw [hmem, List.filter_append, List.filter_append, List.filter_cons, if_pos (by simp [hplanet, hd]),
      List.filter_cons, if_pos (by simp), hafter]
    simp
  refine ⟨hlast, ?_, ?_⟩
  · intro hradius hkeys
    refine hlast hradius ?_
    intro kv hkv hk
    rw [hmem] at hkeys
    have h1 := (List.pairwise_cons.mp (List.pairwise_append.mp hkeys).2.1).1 kv hkv
    rw [hk] at h1
    exact absurd h1 (lt_irrefl _)
  · intro hneg hin
    rw [pickLocationsNearby_eq_foldl] at hin
    rcases QMap.mem_foldl_insert _ _ hin with h | h
    · have h2 : distanceDegrees longitude latitude r.longitude r.latitude ≤ radiusDegrees :=
        (of_decide_eq_true (List.mem_filter.mp h).2).2
      rw [hlong, hlat, hzero] at h2
      exact hneg h2
    · exact absurd h (List.not_mem_nil _)

end Nearby

/-- C18, as stated, fails: the constructor, given Paris both in the base catalogue and in
the user catalogue, leaves a mapping with two entries under the identifier of Paris, both
on Earth and at distance 0 from the query point; the search with the radius 1 returns the
entry of the base catalogue only, and the entry of the user catalogue, which is within the
radius, is omitted. -/
theorem pickLocationsNearby_omits_entry :
    (construct sampleExt [(sampleExt.getID parisBaseOnEarth, parisBaseOnEarth)]
      [(sampleExt.getID parisOnEarth, parisOnEarth)] [] []).locations =
      [(sampleExt.getID parisOnEarth, parisOnEarth),
        (sampleExt.getID parisOnEarth, parisBaseOnEarth)] ∧
    parisOnEarth.planetName = "Earth".toList ∧
    sampleDistance parisOnEarth.longitude parisOnEarth.latitude
      parisOnEarth.longitude parisOnEarth.latitude ≤ 1 ∧
    pickLocationsNearby sampleDistance
      (construct sampleExt [(sampleExt.getID parisBaseOnEarth, parisBaseOnEarth)]
        [(sampleExt.getID parisOnEarth, parisOnEarth)] [] [])
      "Earth".toList parisOnEarth.longitude parisOnEarth.latitude 1 =
      [(sampleExt.getID parisOnEarth, parisBaseOnEarth)] ∧
    (sampleExt.getID parisOnEarth, parisOnEarth) ∉ pickLocationsNearby sampleDistance
      (construct sampleExt [(sampleExt.getID parisBaseOnEarth, parisBaseOnEarth)]
        [(sampleExt.getID parisOnEarth, parisOnEarth)] [] [])
      "Earth".toList parisOnEarth.longitude parisOnEarth.latitude 1 := by
  have hloc : (construct sampleExt [(sampleExt.getID parisBaseOnEarth, parisBaseOnEarth)]
      [(sampleExt.getID parisOnEarth, parisOnEarth)] [] []).locations =
      [(sampleExt.getID parisOnEarth, parisOnEarth),
        (sampleExt.getID parisOnEarth, parisBaseOnEarth)] := rfl
  have hres : pickLocationsNearby sampleDistance
      (construct sampleExt [(sampleExt.getID parisBaseOnEarth, parisBaseOnEarth)]
        [(sampleExt.getID parisOnEarth, parisOnEarth)] [] [])
      "Earth".toList parisOnEarth.longitude parisOnEarth.latitude 1 =
      [(sampleExt.getID parisOnEarth, parisBaseOnEarth)] := by
    unfold pickLocationsNearby
    rw [hloc]
    simp [sampleDistance, QMap.insert, parisOnEarth, parisBaseOnEarth]
  refine ⟨hloc, rfl, by simp [sampleDistance], hres, ?_⟩
  rw [hres]
  simp [parisOnEarth, parisBaseOnEarth, paris, sampleDefault]

/-- Two instances of `pickLocationsNearby_last_passing`. On a mapping that holds Lyon and
Paris, each once, the result is the filter of the mapping. On the mapping the constructor
leaves when Paris is both in the base catalogue and in the user catalogue, the entry of
the base catalogue, the last one under the identifier, is returned. -/
theorem pickLocationsNearby_last_passing_witness :
    (QMap.StrictSorted
      (mgrOf [(sampleExt.getID lyon, lyon),
        (sampleExt.getID parisOnEarth, parisOnEarth)]).locations ∧
    pickLocationsNearby sampleDistance
      (mgrOf [(sampleExt.getID lyon, lyon), (sampleExt.getID parisOnEarth, parisOnEarth)])
      "Earth".toList 2 48 5 =
    (mgrOf [(sampleExt.getID lyon, lyon),
      (sampleExt.getID parisOnEarth, parisOnEarth)]).locations.filter
      (fun iter => decide (iter.2.planetName = "Earth".toList ∧
        sampleDistance 2 48 iter.2.longitude iter.2.latitude ≤ 5))) ∧
    (sampleExt.getID parisOnEarth, parisBaseOnEarth) ∈ pickLocationsNearby sampleDistance
      (construct sampleExt [(sampleExt.getID parisBaseOnEarth, parisBaseOnEarth)]
        [(sampleExt.getID parisOnEarth, parisOnEarth)] [] [])
      "Earth".toList parisOnEarth.longitude parisOnEarth.latitude 1 :=
  ⟨⟨by decide,
      (pickLocationsNearby_last_passing sampleDistance
        (mgrOf [(sampleExt.getID lyon, lyon), (sampleExt.getID parisOnEarth, parisOnEarth)])
        "Earth".toList 2 48 5).2.2.2 (by decide)⟩,
    ((pickLocationsNearby_last_passing sampleDistance
      (construct sampleExt [(sampleExt.getID parisBaseOnEarth, parisBaseOnEarth)]
        [(sampleExt.getID parisOnEarth, parisOnEarth)] [] [])
      "Earth".toList parisOnEarth.longitude parisOnEarth.latitude 1).2.2.1
        (sampleExt.getID parisOnEarth) parisBaseOnEarth).mpr
      (by
        have hloc : (construct sampleExt
            [(sampleExt.getID parisBaseOnEarth, parisBaseOnEarth)]
            [(sampleExt.getID parisOnEarth, parisOnEarth)] [] []).locations =
            [(sampleExt.getID parisOnEarth, parisOnEarth),
              (sampleExt.getID parisOnEarth, parisBaseOnEarth)] := rfl
        rw [hloc]
        simp [sampleDistance, parisOnEarth, parisBaseOnEarth])⟩

/-- On a mapping that holds an identifier twice, as the constructor can leave it, the search
returns one item for the identifier, the last one that passes the test: here the record of
the base catalogue, while the lookup of the identifier gives the user record. -/
theorem pickLocationsNearby_repeated_key :
    pickLocationsNearby sampleDistance
      (mgrOf [(sampleExt.getID parisOnEarth, parisOnEarth),
        (sampleExt.getID parisOnEarth, parisBaseOnEarth)])
      "Earth".toList parisOnEarth.longitude parisOnEarth.latitude 1 =
      [(sampleExt.getID parisOnEarth, parisBaseOnEarth)] ∧
    QMap.find (sampleExt.getID parisOnEarth)
      [(sampleExt.getID parisOnEarth, parisOnEarth),
        (sampleExt.getID parisOnEarth, parisBaseOnEarth)] = some parisOnEarth := by
  refine ⟨?_, by simp [QMap.find]⟩
  simp [pickLocationsNearby, mgrOf, sampleDistance, QMap.insert, parisOnEarth,
    parisBaseOnEarth]

/-- C19, as stated, fails, in two ways. With the radius -1, a record on the queried planet
whose coordinates are the query point, at distance 0 from it, is left out of the result.
With the radius 1, on the mapping the constructor leaves when Paris is both in the base
catalogue and in the user catalogue, the user record of Paris, on the queried planet and
at distance 0, is left out as well: the entry of the base catalogue, later under the same
identifier, takes its place. -/
theorem pickLocationsNearby_same_point_left_out :
    (parisOnEarth.planetName = "Earth".toList ∧
      sampleDistance parisOnEarth.longitude parisOnEarth.latitude
        parisOnEarth.longitude parisOnEarth.latitude = 0 ∧
      pickLocationsNearby sampleDistance
        (mgrOf [(sampleExt.getID parisOnEarth, parisOnEarth)])
        "Earth".toList parisOnEarth.longitude parisOnEarth.latitude (-1) = []) ∧
    ((sampleExt.getID parisOnEarth, parisOnEarth) ∈
        (construct sampleExt [(sampleExt.getID parisBaseOnEarth, parisBaseOnEarth)]
          [(sampleExt.getID parisOnEarth, parisOnEarth)] [] []).locations ∧
      (sampleExt.getID parisOnEarth, parisOnEarth) ∉ pickLocationsNearby sampleDistance
        (construct sampleExt [(sampleExt.getID parisBaseOnEarth, parisBaseOnEarth)]
          [(sampleExt.getID parisOnEarth, parisOnEarth)] [] [])
        "Earth".toList parisOnEarth.longitude parisOnEarth.latitude 1) := by
  have hloc : (construct sampleExt [(sampleExt.getID parisBaseOnEarth, parisBaseOnEarth)]
      [(sampleExt.getID parisOnEarth, parisOnEarth)] [] []).locations =
      [(sampleExt.getID parisOnEarth, parisOnEarth),
        (sampleExt.getID parisOnEarth, parisBaseOnEarth)] := rfl
  refine ⟨⟨rfl, by simp [sampleDistance], ?_⟩, ?_, ?_⟩
  · simp [pickLocationsNearby, mgrOf, sampleDistance]
  · rw [hloc]; exact List.mem_cons_self _ _
  · unfold pickLocationsNearby
    rw [hloc]
    simp [sampleDistance, QMap.insert, parisOnEarth, parisBaseOnEarth, paris, sampleDefault]

/-- Two instances of `pickLocationsNearby_same_point`, on the mapping the constructor
leaves when Paris is both in the base catalogue and in the user catalogue, for the entry
of the base catalogue, the last one under the identifier: with the radius 0 it is in the
result, with the radius -1 it is not. -/
theorem pickLocationsNearby_same_point_witness :
    (sampleExt.getID parisOnEarth, parisBaseOnEarth) ∈ pickLocationsNearby sampleDistance
      (construct sampleExt [(sampleExt.getID parisBaseOnEarth, parisBaseOnEarth)]
        [(sampleExt.getID parisOnEarth, parisOnEarth)] [] [])
      "Earth".toList parisOnEarth.longitude parisOnEarth.latitude 0 ∧
    (sampleExt.getID parisOnEarth, parisBaseOnEarth) ∉ pickLocationsNearby sampleDistance
      (construct sampleExt [(sampleExt.getID parisBaseOnEarth, parisBaseOnEarth)]
        [(sampleExt.getID parisOnEarth, parisOnEarth)] [] [])
      "Earth".toList parisOnEarth.longitude parisOnEarth.latitude (-1) :=
  ⟨(pickLocationsNearby_same_point sampleDistance
      (construct sampleExt [(sampleExt.getID parisBaseOnEarth, parisBaseOnEarth)]
        [(sampleExt.getID parisOnEarth, parisOnEarth)] [] [])
      "Earth".toList parisOnEarth.longitude parisOnEarth.latitude 0
      (sampleExt.getID parisOnEarth) parisBaseOnEarth
      [(sampleExt.getID parisOnEarth, parisOnEarth)] []
      rfl rfl rfl rfl (by simp [sampleDistance])).1 (le_refl _)
      (fun kv hkv => absurd hkv (List.not_mem_nil kv)),
    (pickLocationsNearby_same_point sampleDistance
      (construct sampleExt [(sampleExt.getID parisBaseOnEarth, parisBaseOnEarth)]
        [(sampleExt.getID parisOnEarth, parisOnEarth)] [] [])
      "Earth".toList parisOnEarth.longitude parisOnEarth.latitude (-1)
      (sampleExt.getID parisOnEarth) parisBaseOnEarth
      [(sampleExt.getID parisOnEarth, parisOnEarth)] []
      rfl rfl rfl rfl (by simp [sampleDistance])).2.2 (by norm_num)⟩

/-! ## The time zone pass of the binary catalogue -/

theorem mem_removeDuplicates {x : QString} {l : List QString} :
    x ∈ removeDuplicates l ↔ x ∈ l := by
  induction l with
  | nil => simp [removeDuplicates]
  | cons a tl ih =>
    simp only [removeDuplicates, List.mem_cons, List.mem_filter, ih, decide_eq_true_eq]
    constructor
    · rintro (h | ⟨h, _⟩)
      · exact Or.inl h
      · exact Or.inr h
    · intro h
      by_cases hx : x = a
      · exact Or.inl hx
      · rcases h with h | h
        · exact absurd h hx
        · exact Or.inr ⟨h, hx⟩

theorem nodup_removeDuplicates (l : List QString) : (removeDuplicates l).Nodup := by
  induction l with
  | nil => simp [removeDuplicates]
  | cons a tl ih =>
    simp only [removeDuplicates]
    refine List.nodup_cons.mpr ⟨?_, ih.filter _⟩
    intro h
    have := (List.mem_filter.mp h).2
    simp at this

section BinaryCatalogue

variable {F : Type}

/-- The pass over one item: the item is added with its time zone after the pass, and its
time zone is added to the unknown names when it stays unresolved. -/
theorem loadCitiesBinItem_eq (table : QMap QString QString) (avail : List QString)
    (acc : QMap QString (StelLocation F) × List QString) (i : QString × StelLocation F) :
    loadCitiesBinItem table avail acc i =
      (acc.1 ++ [(i.1,
          { i.2 with ianaTimeZone := timeZoneAfterPass table avail i.2.ianaTimeZone })],
        acc.2 ++ (if unresolvedTimeZone table avail i.2.ianaTimeZone = true
          then [i.2.ianaTimeZone] else [])) := by
  obtain ⟨k, loc⟩ := i
  have heta : ∀ z, z = loc.ianaTimeZone →
      ({ loc with ianaTimeZone := z } : StelLocation F) = loc := by
    intro z hz; subst hz; rfl
  unfold loadCitiesBinItem
  by_cases h1 : loc.ianaTimeZone ≠ "LMST".toList ∧ loc.ianaTimeZone ≠ "LTST".toList ∧
      ¬ loc.ianaTimeZone ∈ avail
  · by_cases h2 : sanitizeTimezoneStringFromLocationDB table loc.ianaTimeZone ∈ avail
    · have ht : timeZoneAfterPass table avail loc.ianaTimeZone =
          sanitizeTimezoneStringFromLocationDB table loc.ianaTimeZone := by
        unfold timeZoneAfterPass
        rw [if_neg (by tauto), if_pos h2]
      have hu : ¬ unresolvedTimeZone table avail loc.ianaTimeZone = true := by
        simp only [unresolvedTimeZone, decide_eq_true_eq]
        tauto
      simp only []
      rw [if_pos h1, if_pos h2, if_neg hu, ht, List.append_nil]
    · have ht : timeZoneAfterPass table avail loc.ianaTimeZone = loc.ianaTimeZone := by
        unfold timeZoneAfterPass
        rw [if_neg (by tauto), if_neg h2]
      have hu : unresolvedTimeZone table avail loc.ianaTimeZone = true := by
        simp only [unresolvedTimeZone, decide_eq_true_eq]
        exact ⟨h1.1, h1.2.1, h1.2.2, h2⟩
      simp only []
      rw [if_pos h1, if_neg h2, if_pos hu, heta _ ht]
  · have ht : timeZoneAfterPass table avail loc.ianaTimeZone = loc.ianaTimeZone := by
      unfold timeZoneAfterPass
      rw [if_pos (by tauto)]
    have hu : ¬ unresolvedTimeZone table avail loc.ianaTimeZone = true := by
      simp only [unresolvedTimeZone, decide_eq_true_eq]
      tauto
    simp only []
    rw [if_neg h1, if_neg hu, heta _ ht, List.append_nil]

/-- The loop of `loadCitiesBin`, started with the items and unknown names `acc`: every item
is added with its time zone after the pass, and the time zones that stay unresolved are
added to the unknown names, in the order of the map. -/
theorem foldl_loadCitiesBinItem (table : QMap QString QString) (avail : List QString)
    (res : QMap QString (StelLocation F))
    (acc : QMap QString (StelLocation F) × List QString) :
    res.foldl (loadCitiesBinItem table avail) acc =
      (acc.1 ++ res.map (fun i =>
          (i.1, { i.2 with ianaTimeZone := timeZoneAfterPass table avail i.2.ianaTimeZone })),
        acc.2 ++ (res.filter
          (fun i => unresolvedTimeZone table avail i.2.ianaTimeZone)).map
            (fun i => i.2.ianaTimeZone)) := by
  induction res generalizing acc with
  | nil => simp
  | cons hd tl ih =>
    rw [List.foldl_cons, ih, loadCitiesBinItem_eq]
    cases hu : unresolvedTimeZone table avail hd.2.ianaTimeZone <;>
      simp [List.filter_cons, hu]

/-- C20: the time zone pass of `loadCitiesBin` keeps the items of the decoded map, their
keys and their order, and changes at most the field `ianaTimeZone` of a record: a time zone
that is `LMST`, `LTST` or known to the host is kept; else it becomes its host spelling when
that is known to the host; else it is kept. The reported list of unknown time zones has no
duplicates, and holds exactly the time zones of records that are neither `LMST` nor `LTST`,
not known to the host, and whose host spelling is not known either. -/
theorem loadCitiesBin_timeZonePass (table : QMap QString QString)
    (res : QMap QString (StelLocation F)) (avail : List QString) :
    (loadCitiesBin table (some res) avail).1 =
      res.map (fun i =>
        (i.1, { i.2 with ianaTimeZone := timeZoneAfterPass table avail i.2.ianaTimeZone })) ∧
    (loadCitiesBin table (some res) avail).1.map Prod.fst = res.map Prod.fst ∧
    (loadCitiesBin table (some res) avail).2.Nodup ∧
    ∀ z, z ∈ (loadCitiesBin table (some res) avail).2 ↔
      ∃ i ∈ res, i.2.ianaTimeZone = z ∧ unresolvedTimeZone table avail z = true := by
  have hf := foldl_loadCitiesBinItem table avail res ([], [])
  simp only [List.nil_append] at hf
  have h1 : (loadCitiesBin table (some res) avail).1 =
      res.map (fun i =>
        (i.1, { i.2 with ianaTimeZone := timeZoneAfterPass table avail i.2.ianaTimeZone })) := by
    simp only [loadCitiesBin, hf]
  have h2 : (loadCitiesBin table (some res) avail).2 =
      removeDuplicates ((res.filter
        (fun i => unresolvedTimeZone table avail i.2.ianaTimeZone)).map
          (fun i => i.2.ianaTimeZone)) := by
    simp only [loadCitiesBin, hf]
    split
    · rfl
    · rename_i hlen
      have : (res.filter (fun i => unresolvedTimeZone table avail i.2.ianaTimeZone)).map
          (fun i => i.2.ianaTimeZone) = [] := by
        apply List.eq_nil_of_length_eq_zero
        omega
      rw [this]; rfl
  refine ⟨h1, ?_, ?_, ?_⟩
  · rw [h1, List.map_map]; rfl
  · rw [h2]; exact nodup_removeDuplicates _
  · intro z
    rw [h2, mem_removeDuplicates, List.mem_map]
    constructor
    · rintro ⟨i, hi, hz⟩
      obtain ⟨hmem, hu⟩ := List.mem_filter.mp hi
      exact ⟨i, hmem, hz, by rw [← hz]; exact hu⟩
    · rintro ⟨i, hmem, hz, hu⟩
      exact ⟨i, List.mem_filter.mpr ⟨hmem, by rw [hz]; exact hu⟩, hz⟩

end BinaryCatalogue

/-- An instance of `loadCitiesBin_timeZonePass` on the seeded table, for a host that knows
`UTC+03:00` and `Europe/Paris`: Minsk gets the host spelling `UTC+03:00`, Paris and the
site with `LMST` keep their time zone, and the two sites with the unknown `Mars/Olympus`
keep it and are reported once. -/
theorem loadCitiesBin_timeZonePass_witness :
    (loadCitiesBin locationDBToIANAtranslations
      (some [("Minsk".toList, cityInZone "Minsk" "Europe/Minsk"),
        ("Olympus A".toList, cityInZone "Olympus A" "Mars/Olympus"),
        ("Olympus B".toList, cityInZone "Olympus B" "Mars/Olympus"),
        ("Paris".toList, cityInZone "Paris" "Europe/Paris"),
        ("Tranquility".toList, cityInZone "Tranquility" "LMST")])
      ["UTC+03:00".toList, "Europe/Paris".toList]) =
    ([("Minsk".toList, cityInZone "Minsk" "UTC+03:00"),
        ("Olympus A".toList, cityInZone "Olympus A" "Mars/Olympus"),
        ("Olympus B".toList, cityInZone "Olympus B" "Mars/Olympus"),
        ("Paris".toList, cityInZone "Paris" "Europe/Paris"),
        ("Tranquility".toList, cityInZone "Tranquility" "LMST")],
      ["Mars/Olympus".toList]) ∧
    (loadCitiesBin locationDBToIANAtranslations
      (some [("Minsk".toList, cityInZone "Minsk" "Europe/Minsk")])
      ["UTC+03:00".toList]).2.Nodup :=
  ⟨by decide,
    (loadCitiesBin_timeZonePass locationDBToIANAtranslations
      [("Minsk".toList, cityInZone "Minsk" "Europe/Minsk")] ["UTC+03:00".toList]).2.2.1⟩

/-! ## The round trip through the translation table -/

/-- C24, as stated, fails: `Asia/Hebron` is a key of the seeded table whose host spelling
`Asia/Jerusalem` does not start with `UTC`, and translating it to the host spelling and
back gives `Asia/Gaza`, the first key of the table with that host spelling. -/
theorem sanitize_round_trip_hebron :
    QMap.find "Asia/Hebron".toList locationDBToIANAtranslations =
      some "Asia/Jerusalem".toList ∧
    startsWithUTC "Asia/Jerusalem".toList = false ∧
    sanitizeTimezoneStringForLocationDB locationDBToIANAtranslations
      (sanitizeTimezoneStringFromLocationDB locationDBToIANAtranslations
        "Asia/Hebron".toList) = "Asia/Gaza".toList ∧
    "Asia/Gaza".toList ≠ "Asia/Hebron".toList := by
  decide

/-- The round trip on the items of the seeded table, one by one. -/
theorem translations_round_trip :
    ∀ kv ∈ locationDBToIANAtranslations, startsWithUTC kv.2 = false →
      kv.1 ≠ "Asia/Hebron".toList →
      sanitizeTimezoneStringForLocationDB locationDBToIANAtranslations
        (sanitizeTimezoneStringFromLocationDB locationDBToIANAtranslations kv.1) = kv.1 := by
  decide

/-- C24, as the code has it: for every key of the seeded table other than `Asia/Hebron`
whose host spelling does not start with `UTC`, translating the key to the host spelling
with `sanitizeTimezoneStringFromLocationDB` and back with
`sanitizeTimezoneStringForLocationDB` returns the key; this includes `Asia/Gaza`. -/
theorem sanitize_round_trip (k v : QString)
    (hk : QMap.find k locationDBToIANAtranslations = some v)
    (hv : startsWithUTC v = false)
    (hne : k ≠ "Asia/Hebron".toList) :
    sanitizeTimezoneStringForLocationDB locationDBToIANAtranslations
      (sanitizeTimezoneStringFromLocationDB locationDBToIANAtranslations k) = k :=
  translations_round_trip (k, v) (QMap.mem_of_find hk) hv hne

/-- Two instances of `sanitize_round_trip`: the keys `Asia/Gaza` and `Asia/Kolkata`. -/
theorem sanitize_round_trip_witness :
    sanitizeTimezoneStringForLocationDB locationDBToIANAtranslations
      (sanitizeTimezoneStringFromLocationDB locationDBToIANAtranslations
        "Asia/Gaza".toList) = "Asia/Gaza".toList ∧
    sanitizeTimezoneStringForLocationDB locationDBToIANAtranslations
      (sanitizeTimezoneStringFromLocationDB locationDBToIANAtranslations
        "Asia/Kolkata".toList) = "Asia/Kolkata".toList :=
  ⟨sanitize_round_trip "Asia/Gaza".toList "Asia/Jerusalem".toList
      (by decide) (by decide) (by decide),
    sanitize_round_trip "Asia/Kolkata".toList "Asia/Calcutta".toList
      (by decide) (by decide) (by decide)⟩

/-! ## Keys and identifiers -/

/-- An item of the map after `remove` was there before. -/
theorem QMap.mem_of_mem_remove {K V : Type} [LinearOrder K] {k : K} {m : QMap K V}
    {kv : K × V} (h : kv ∈ QMap.remove k m) : kv ∈ m := by
  induction m with
  | nil => simp [QMap.remove] at h
  | cons hd tl ih =>
    obtain ⟨k1, v1⟩ := hd
    rcases lt_trichotomy k1 k with h1 | h1 | h1
    · simp only [QMap.remove, h1, if_true, List.mem_cons] at h
      rcases h with h | h
      · rw [h]; exact List.mem_cons_self _ _
      · exact List.mem_cons_of_mem _ (ih h)
    · subst h1
      simp only [QMap.remove, lt_irrefl, if_false] at h
      exact List.mem_cons_of_mem _ (ih h)
    · simp only [QMap.remove, not_lt_of_gt h1, h1, if_true, if_false] at h
      exact h

section Keys

variable {F : Type}

/-- Inserting a record under its identifier keeps keys and identifiers consistent. -/
theorem keysAreIDs_insert (E : Ext F) {m : QMap QString (StelLocation F)}
    (hm : KeysAreIDs E m) (v : StelLocation F) :
    KeysAreIDs E (QMap.insert (E.getID v) v m) := by
  intro kv hkv
  rcases QMap.mem_insert hkv with ⟨h1, h2⟩ | h
  · rw [h1, h2]
  · exact hm kv h

/-- Removing a key keeps keys and identifiers consistent. -/
theorem keysAreIDs_remove (E : Ext F) {m : QMap QString (StelLocation F)}
    (hm : KeysAreIDs E m) (k : QString) : KeysAreIDs E (QMap.remove k m) :=
  fun kv hkv => hm kv (QMap.mem_of_mem_remove hkv)

/-- The body of the loop of `loadCities` keeps keys and identifiers consistent, with or
without a collision. -/
theorem keysAreIDs_loadCitiesLine (E : Ext F) (isUser : Bool)
    {m : QMap QString (StelLocation F)} (hm : KeysAreIDs E m) (l : QString) :
    KeysAreIDs E (loadCitiesLine E isUser m l) := by
  unfold loadCitiesLine
  split
  · exact hm
  · simp only []
    split
    · exact keysAreIDs_insert E (keysAreIDs_insert E (keysAreIDs_remove E hm _) _) _
    · exact keysAreIDs_insert E hm _

/-- C22: keys and identifiers are consistent. Every entry of the mapping returned by
`loadCities` is stored under the identifier of its record as it is, renamed or not; and
`saveUserLocation`, `deleteUserLocation` and `setLocations` keep a mapping consistent
when it was so before the call, whatever they return. -/
theorem keysAreIDs_kept (E : Ext F) :
    (∀ (file : Option (List QString)) (isUser : Bool),
      KeysAreIDs E (loadCities E file isUser)) ∧
    (∀ (fs : FileAnswers) (w : StelLocationMgr F) (r : StelLocation F),
      KeysAreIDs E w.locations → KeysAreIDs E (saveUserLocation E fs w r).2.locations) ∧
    (∀ (fs : FileAnswers) (w : StelLocationMgr F) (id : QString),
      KeysAreIDs E w.locations → KeysAreIDs E (deleteUserLocation E fs w id).2.locations) ∧
    (∀ (w : StelLocationMgr F) (rs : List (StelLocation F)),
      KeysAreIDs E w.locations → KeysAreIDs E (setLocations E w rs).locations) := by
  refine ⟨?_, ?_, ?_, ?_⟩
  · intro file isUser
    cases file with
    | none => intro kv hkv; exact absurd hkv (List.not_mem_nil kv)
    | some lines =>
      have hfold : ∀ (ls : List QString) (acc : QMap QString (StelLocation F)),
          KeysAreIDs E acc → KeysAreIDs E (ls.foldl (loadCitiesLine E isUser) acc) := by
        intro ls
        induction ls with
        | nil => intro acc h; exact h
        | cons l tl ih =>
          intro acc h
          exact ih _ (keysAreIDs_loadCitiesLine E isUser h l)
      exact hfold lines [] (fun kv hkv => absurd hkv (List.not_mem_nil kv))
  · intro fs w r hw
    obtain ⟨a, b, c, d⟩ := fs
    have hins := keysAreIDs_insert E hw r
    unfold saveUserLocation
    cases canSaveUserLocation E w r <;> cases a <;> cases b <;> cases c <;> cases d <;>
      first
      | exact hw
      | exact hins
  · intro fs w id hw
    obtain ⟨a, b, c, d⟩ := fs
    have hrem := keysAreIDs_remove E hw id
    unfold deleteUserLocation
    cases canDeleteUserLocation w id <;> cases a <;> cases b <;> cases c <;> cases d <;>
      first
      | exact hw
      | exact hrem
  · intro w rs hw
    have hfold : ∀ (ls : List (StelLocation F)) (acc : QMap QString (StelLocation F)),
        KeysAreIDs E acc →
        KeysAreIDs E (ls.foldl (fun acc it => QMap.insert (E.getID it) it acc) acc) := by
      intro ls
      induction ls with
      | nil => intro acc h; exact h
      | cons l tl ih =>
        intro acc h
        exact ih _ (keysAreIDs_insert E h l)
    exact hfold rs w.locations hw

end Keys

/-- An instance of `keysAreIDs_kept`: the catalogue of three lines for Springfield, where
the first two records are renamed, and Paris saved into the mapping it gives. -/
theorem keysAreIDs_kept_witness :
    KeysAreIDs lineExt
      (loadCities lineExt (some [springfieldIL, springfieldMA, springfieldMO]) true) ∧
    KeysAreIDs lineExt
      (saveUserLocation lineExt fsGood
        (mgrOf (loadCities lineExt (some [springfieldIL, springfieldMA, springfieldMO]) true))
        paris).2.locations :=
  ⟨(keysAreIDs_kept lineExt).1 _ true,
    (keysAreIDs_kept lineExt).2.1 fsGood _ paris
      ((keysAreIDs_kept lineExt).1 (some [springfieldIL, springfieldMA, springfieldMO]) true)⟩

/-! ## The flag of a saved location -/

section SavedFlag

variable {F : Type}

/-- After a successful `saveUserLocation` the record stored under the identifier is the
record as it was given, so whether it can be deleted is its own flag `isUserLocation`. -/
theorem saveUserLocation_stores_flag (E : Ext F) (fs : FileAnswers) (w : StelLocationMgr F)
    (r : StelLocation F) (hsave : (saveUserLocation E fs w r).1 = true) :
    QMap.find (E.getID r) (saveUserLocation E fs w r).2.locations = some r ∧
    canDeleteUserLocation (saveUserLocation E fs w r).2 (E.getID r) = r.isUserLocation := by
  obtain ⟨a, b, c, d⟩ := fs
  have hfind : QMap.find (E.getID r) (QMap.insert (E.getID r) r w.locations) = some r :=
    QMap.find_insert_self _ _ _
  unfold saveUserLocation at hsave ⊢
  cases hc : canSaveUserLocation E w r <;> cases a <;> cases b <;> cases c <;> cases d <;>
    simp [hc] at hsave ⊢ <;>
    simp [canDeleteUserLocation, hfind]

end SavedFlag

/-- C21 fails on the code: `saveUserLocation` stores the record with the flag it came with.
Marseille, given with `isUserLocation` false, is saved with success and its line appended
to the user catalogue, but the stored record is no user location: it cannot be deleted,
and when Lyon is deleted the rewrite of the user catalogue leaves the line of Marseille
out, while Marseille stays in the mapping. -/
theorem saveUserLocation_flag_not_set :
    marseille.isUserLocation = false ∧
    (saveUserLocation sampleExt fsGood mgrLyon marseille).1 = true ∧
    (saveUserLocation sampleExt fsGood mgrLyon marseille).2.userFile =
      sampleExt.serializeToLine lyon ++ ['\n'] ++
        (sampleExt.serializeToLine marseille ++ ['\n']) ∧
    QMap.find (sampleExt.getID marseille)
      (saveUserLocation sampleExt fsGood mgrLyon marseille).2.locations = some marseille ∧
    canDeleteUserLocation (saveUserLocation sampleExt fsGood mgrLyon marseille).2
      (sampleExt.getID marseille) = false ∧
    (deleteUserLocation sampleExt fsGood
      (saveUserLocation sampleExt fsGood mgrLyon marseille).2
      (sampleExt.getID marseille)).1 = false ∧
    (deleteUserLocation sampleExt fsGood
      (saveUserLocation sampleExt fsGood mgrLyon marseille).2
      (sampleExt.getID lyon)).1 = true ∧
    (deleteUserLocation sampleExt fsGood
      (saveUserLocation sampleExt fsGood mgrLyon marseille).2
      (sampleExt.getID lyon)).2.userFile = [] ∧
    QMap.find (sampleExt.getID marseille)
      (deleteUserLocation sampleExt fsGood
        (saveUserLocation sampleExt fsGood mgrLyon marseille).2
        (sampleExt.getID lyon)).2.locations = some marseille := by
  decide

/-! ## A third line with the same identifier -/

section ThirdLine

variable {F : Type}

/-- The loop of `loadCities` on two data lines with the same identifier and non-empty
states: both records are stored renamed. -/
theorem foldl_loadCitiesLine_pair (E : Ext F) (isUser : Bool) (l1 l2 : QString)
    (hd1 : skippedLine l1 = false) (hd2 : skippedLine l2 = false)
    (hid : E.getID (lineRecord E isUser l1) = E.getID (lineRecord E isUser l2))
    (hstate1 : (lineRecord E isUser l1).state ≠ [])
    (hstate2 : (lineRecord E isUser l2).state ≠ []) :
    [l1, l2].foldl (loadCitiesLine E isUser) [] =
      QMap.insert (E.getID (withStateInName (lineRecord E isUser l2)))
        (withStateInName (lineRecord E isUser l2))
        [(E.getID (withStateInName (lineRecord E isUser l1)),
          withStateInName (lineRecord E isUser l1))] := by
  have hfind : QMap.find (E.getID (lineRecord E isUser l2))
      [(E.getID (lineRecord E isUser l1), lineRecord E isUser l1)] =
      some (lineRecord E isUser l1) := by
    rw [← hid]; simp [QMap.find]
  have hrem : QMap.remove (E.getID (lineRecord E isUser l2))
      [(E.getID (lineRecord E isUser l1), lineRecord E isUser l1)] = [] := by
    rw [← hid]; simp [QMap.remove]
  simp only [List.foldl_cons, List.foldl_nil]
  rw [loadCitiesLine_fresh E isUser [] l1 hd1 rfl]
  have hone : QMap.insert (E.getID (lineRecord E isUser l1)) (lineRecord E isUser l1) [] =
      [(E.getID (lineRecord E isUser l1), lineRecord E isUser l1)] := rfl
  rw [hone, loadCitiesLine_collide E isUser _ l2 _ hd2 hfind hstate1 hstate2, hrem]
  rfl

/-- After two lines have collided and been renamed, a third data line with the same
identifier finds that identifier free: its record is stored under it with its name as it
was read, whatever its state. -/
theorem loadCities_third_line (E : Ext F) (isUser : Bool) (l1 l2 l3 : QString)
    (hd1 : skippedLine l1 = false) (hd2 : skippedLine l2 = false)
    (hd3 : skippedLine l3 = false)
    (hid2 : E.getID (lineRecord E isUser l1) = E.getID (lineRecord E isUser l2))
    (hid3 : E.getID (lineRecord E isUser l1) = E.getID (lineRecord E isUser l3))
    (hstate1 : (lineRecord E isUser l1).state ≠ [])
    (hstate2 : (lineRecord E isUser l2).state ≠ [])
    (hnew1 : E.getID (withStateInName (lineRecord E isUser l1)) ≠
      E.getID (lineRecord E isUser l1))
    (hnew2 : E.getID (withStateInName (lineRecord E isUser l2)) ≠
      E.getID (lineRecord E isUser l1)) :
    QMap.find (E.getID (lineRecord E isUser l1))
      (loadCities E (some [l1, l2, l3]) isUser) = some (lineRecord E isUser l3) := by
  have hpair := foldl_loadCitiesLine_pair E isUser l1 l2 hd1 hd2 hid2 hstate1 hstate2
  have hfree : QMap.find (E.getID (lineRecord E isUser l3))
      ([l1, l2].foldl (loadCitiesLine E isUser) []) = none := by
    rw [hpair, ← hid3, QMap.find_insert_ne (Ne.symm hnew2)]
    rcases lt_trichotomy (E.getID (withStateInName (lineRecord E isUser l1)))
      (E.getID (lineRecord E isUser l1)) with h | h | h
    · simp [QMap.find, h]
    · exact absurd h hnew1
    · simp [QMap.find, h, not_lt_of_gt h]
  have hsplit : [l1, l2, l3].foldl (loadCitiesLine E isUser) [] =
      loadCitiesLine E isUser ([l1, l2].foldl (loadCitiesLine E isUser) []) l3 := rfl
  show QMap.find _ ([l1, l2, l3].foldl (loadCitiesLine E isUser) []) = _
  rw [hsplit, loadCitiesLine_fresh E isUser _ l3 hd3 hfree, hid3]
  exact QMap.find_insert_self _ _ _

end ThirdLine

/-- C23 fails on the code: for the catalogue of three data lines for Springfield, with one
identifier and the three different states `IL`, `MA` and `MO`, `loadCities` renames the
first two records only. The third is stored under the undisambiguated identifier
`Springfield, US` with the name `Springfield`, not `Springfield (MO)`. -/
theorem loadCities_three_colliding_lines :
    lineExt.getID (lineRecord lineExt true springfieldIL) = "Springfield, US".toList ∧
    lineExt.getID (lineRecord lineExt true springfieldMA) = "Springfield, US".toList ∧
    lineExt.getID (lineRecord lineExt true springfieldMO) = "Springfield, US".toList ∧
    (lineRecord lineExt true springfieldIL).state = "IL".toList ∧
    (lineRecord lineExt true springfieldMA).state = "MA".toList ∧
    (lineRecord lineExt true springfieldMO).state = "MO".toList ∧
    (loadCities lineExt (some [springfieldIL, springfieldMA, springfieldMO]) true).map
      (fun kv => (kv.1, kv.2.name)) =
      [("Springfield (IL), US".toList, "Springfield (IL)".toList),
        ("Springfield (MA), US".toList, "Springfield (MA)".toList),
        ("Springfield, US".toList, "Springfield".toList)] ∧
    QMap.find "Springfield, US".toList
      (loadCities lineExt (some [springfieldIL, springfieldMA, springfieldMO]) true) =
      some (lineRecord lineExt true springfieldMO) := by
  decide

/-- An instance of `loadCities_third_line`: the three lines for Springfield. -/
theorem loadCities_third_line_witness :
    QMap.find (lineExt.getID (lineRecord lineExt true springfieldIL))
      (loadCities lineExt (some [springfieldIL, springfieldMA, springfieldMO]) true) =
      some (lineRecord lineExt true springfieldMO) :=
  loadCities_third_line lineExt true springfieldIL springfieldMA springfieldMO
    (by decide) (by decide) (by decide) (by decide) (by decide) (by decide) (by decide)
    (by decide) (by decide)

end Stel
